import Mathlib

/-!
# Verification of the feed-normalization + analysis-cache pipeline

Shallow embedding of the core of the `kessan-bunseki` repository
(`src/tdnet.py`, `src/analyzer.py`, `src/storage.py`, `app.py`) and proofs
about the claims of its specification.

Python values flowing through the pipeline are JSON values (everything is
produced by `requests.Response.json()` or `json.loads`), so Python objects
are modelled by the inductive type `JVal` below.  The standard-library
functions the code relies on (`json.dumps` / `json.loads`,
`datetime.fromisoformat`, `datetime.strptime`, `urllib.parse.urlparse`,
`str.strip`, `str.lower`) are not part of the repository; they are modelled
here faithfully for the fragment of their behaviour the repository
exercises: `loads` covers JSON objects/arrays/strings/integers/booleans/null
(non-integer numerics and `\uXXXX` escapes are outside the model and are
treated as unparseable).
-/

set_option maxHeartbeats 1000000

namespace KS

/-- Whitespace stripped by Python `str.strip()` (ASCII fragment). -/
def pyWs (c : Char) : Bool :=
  c = ' ' || c = '\t' || c = '\n' || c = '\x0d' || c = '\x0b' || c = '\x0c'

/-- Whitespace skipped by Python's `json` scanner: space, tab, newline, CR. -/
def jsonWs (c : Char) : Bool :=
  c = ' ' || c = '\t' || c = '\n' || c = '\x0d'

/-- Model of Python `str.strip()` on a character list. -/
def pyStripL (cs : List Char) : List Char :=
  ((cs.dropWhile pyWs).reverse.dropWhile pyWs).reverse

/-- Model of Python `str.strip()`. -/
def pyStrip (s : String) : String := ⟨pyStripL s.data⟩

/-- ASCII lower-casing of one character (Python `str.lower` on ASCII input;
non-ASCII characters are left unchanged, which matches Python on the
Japanese text appearing in this repository). -/
def lowerChar (c : Char) : Char :=
  if 'A' ≤ c && c ≤ 'Z' then Char.ofNat (c.toNat + 32) else c

/-- Model of Python `str.lower()` (ASCII fragment). -/
def pyLower (s : String) : String := ⟨s.data.map lowerChar⟩

/-- ASCII decimal digit test. -/
def isDigitChar (c : Char) : Bool :=
  c = '0' || c = '1' || c = '2' || c = '3' || c = '4' ||
  c = '5' || c = '6' || c = '7' || c = '8' || c = '9'

/-- Value of an ASCII digit character. -/
def digitVal (c : Char) : Nat := c.toNat - 48

/-- The ASCII digit character for `n % 10`. -/
def digitChr (n : Nat) : Char := Char.ofNat (48 + n % 10)

/-- Fuel-indexed digit emitter: prepend the decimal digits of `n` to `acc`.
Structural in the fuel so that it evaluates inside the kernel. -/
def dumpNatAux : Nat → Nat → List Char → List Char
  | 0, _, acc => acc
  | fuel + 1, n, acc =>
    if n < 10 then digitChr n :: acc
    else dumpNatAux fuel (n / 10) (digitChr (n % 10) :: acc)

/-- Decimal digits of a natural number, most significant first
(the representation printed by Python's `repr` of an `int`). -/
def dumpNat (n : Nat) : List Char := dumpNatAux (n + 1) n []

/-- Decimal representation of an integer, Python style. -/
def dumpInt (n : Int) : List Char :=
  if n < 0 then '-' :: dumpNat (-n).toNat else dumpNat n.toNat

/-- JSON values: the model of the Python values that flow through the
pipeline (`None`/`bool`/`int`/`str`/`list`/`dict`).  Objects are ordered
association lists, mirroring Python's insertion-ordered `dict`. -/
inductive JVal where
  | null
  | bool (b : Bool)
  | int (n : Int)
  | str (s : String)
  | arr (xs : List JVal)
  | obj (kvs : List (String × JVal))
deriving Repr

/- Size measure of a `JVal`, used as parser fuel accounting. -/
mutual

def jsize : JVal → Nat
  | .null => 1
  | .bool _ => 1
  | .int _ => 1
  | .str _ => 1
  | .arr xs => jsizeA xs + 2
  | .obj kvs => jsizeO kvs + 2

def jsizeA : List JVal → Nat
  | [] => 0
  | v :: vs => jsize v + jsizeA vs + 1

def jsizeO : List (String × JVal) → Nat
  | [] => 0
  | (_, v) :: kvs => jsize v + jsizeO kvs + 1

end

/- Serialization of a `JVal`, modelling
`json.dumps(payload, ensure_ascii=False)` (default separators `", "` and
`": "`; well-formed strings are emitted verbatim). -/
mutual

def dumpV : JVal → List Char
  | .null => "null".data
  | .bool true => "true".data
  | .bool false => "false".data
  | .int n => dumpInt n
  | .str s => '"' :: (s.data ++ ['"'])
  | .arr xs => '[' :: (dumpA xs ++ [']'])
  | .obj kvs => '{' :: (dumpO kvs ++ ['}'])

def dumpA : List JVal → List Char
  | [] => []
  | [v] => dumpV v
  | v :: vs => dumpV v ++ ',' :: ' ' :: dumpA vs

def dumpO : List (String × JVal) → List Char
  | [] => []
  | [(k, v)] => '"' :: (k.data ++ '"' :: ':' :: ' ' :: dumpV v)
  | (k, v) :: kvs =>
      '"' :: (k.data ++ '"' :: ':' :: ' ' :: dumpV v) ++ ',' :: ' ' :: dumpO kvs

end

/-- `json.dumps(v, ensure_ascii=False)` as a `String`. -/
def dumps (v : JVal) : String := ⟨dumpV v⟩

/-- A character that `json.dumps` emits verbatim inside a string literal and
that the scanner reads back verbatim: not a quote, not a backslash, not a
control character. -/
def plainChar (c : Char) : Bool := c ≠ '"' && c ≠ '\\' && 32 ≤ c.toNat

/-- A string that serializes verbatim. -/
def plainStr (s : String) : Bool := s.data.all plainChar

/- Well-formedness of a payload: every string (and key) serializes
verbatim.  All payloads manipulated by the repository satisfy this. -/
mutual

def wfJ : JVal → Bool
  | .null => true
  | .bool _ => true
  | .int _ => true
  | .str s => plainStr s
  | .arr xs => wfA xs
  | .obj kvs => wfO kvs

def wfA : List JVal → Bool
  | [] => true
  | v :: vs => wfJ v && wfA vs

def wfO : List (String × JVal) → Bool
  | [] => true
  | (k, v) :: kvs => plainStr k && wfJ v && wfO kvs

end

/-- Skip JSON whitespace. -/
def skipWs (cs : List Char) : List Char := cs.dropWhile jsonWs

/-- Expect a literal run of characters; return the rest on success. -/
def expectLit : List Char → List Char → Option (List Char)
  | [], cs => some cs
  | _ :: _, [] => none
  | l :: ls, c :: cs => if c = l then expectLit ls cs else none

/-- Scan the body of a JSON string literal (after the opening quote), up to
and including the closing quote.  Handles the single-character escapes;
`\uXXXX` escapes are outside the model. -/
def parseStrBody : List Char → Option (List Char × List Char)
  | [] => none
  | c :: cs =>
    if c = '"' then some ([], cs)
    else if c = '\\' then
      match cs with
      | [] => none
      | e :: cs2 =>
        let esc : Option Char :=
          if e = '"' then some '"'
          else if e = '\\' then some '\\'
          else if e = '/' then some '/'
          else if e = 'n' then some '\n'
          else if e = 't' then some '\t'
          else if e = 'r' then some '\x0d'
          else if e = 'b' then some '\x08'
          else if e = 'f' then some '\x0c'
          else none
        match esc with
        | none => none
        | some ch =>
          match parseStrBody cs2 with
          | none => none
          | some (s, rest) => some (ch :: s, rest)
    else if c.toNat < 32 then none
    else
      match parseStrBody cs with
      | none => none
      | some (s, rest) => some (c :: s, rest)

/-- Numeric value of a digit run. -/
def natOfDigits (ds : List Char) : Nat :=
  ds.foldl (fun a c => a * 10 + digitVal c) 0

/-- Scan a natural number literal (maximal digit run, JSON's no-leading-zero
rule). -/
def parseNat (cs : List Char) : Option (Nat × List Char) :=
  let ds := cs.takeWhile isDigitChar
  let rest := cs.dropWhile isDigitChar
  if ds = [] then none
  else if ds.head? = some '0' && 1 < ds.length then none
  else some (natOfDigits ds, rest)

/-- After an integer literal the scanner must not be looking at a fraction
or exponent (floats are outside the model: such inputs are unparseable). -/
def intStop : List Char → Bool
  | [] => true
  | c :: _ => !(c = '.' || c = 'e' || c = 'E')

/-- Scan an integer literal. -/
def parseIntTok (cs : List Char) : Option (Int × List Char) :=
  match cs with
  | '-' :: cs2 =>
    match parseNat cs2 with
    | none => none
    | some (n, rest) => if intStop rest then some (-(n : Int), rest) else none
  | _ =>
    match parseNat cs with
    | none => none
    | some (n, rest) => if intStop rest then some ((n : Int), rest) else none

/- The JSON scanner, fuel-indexed: parse one value at the head of the
input (no leading whitespace), returning the value and the rest. -/
mutual

def parseVal : Nat → List Char → Option (JVal × List Char)
  | 0, _ => none
  | _ + 1, [] => none
  | fuel + 1, c :: rest =>
    if c = 'n' then (expectLit ['u', 'l', 'l'] rest).map fun r => (.null, r)
    else if c = 't' then (expectLit ['r', 'u', 'e'] rest).map fun r => (.bool true, r)
    else if c = 'f' then (expectLit ['a', 'l', 's', 'e'] rest).map fun r => (.bool false, r)
    else if c = '"' then (parseStrBody rest).map fun p => (.str ⟨p.1⟩, p.2)
    else if c = '[' then
      match skipWs rest with
      | ']' :: r2 => some (.arr [], r2)
      | r1 => (parseItems fuel r1).map fun p => (.arr p.1, p.2)
    else if c = '{' then
      match skipWs rest with
      | '}' :: r2 => some (.obj [], r2)
      | r1 => (parseMembers fuel r1).map fun p => (.obj p.1, p.2)
    else (parseIntTok (c :: rest)).map fun p => (.int p.1, p.2)

def parseItems : Nat → List Char → Option (List JVal × List Char)
  | 0, _ => none
  | fuel + 1, cs =>
    match parseVal fuel cs with
    | none => none
    | some (v, r) =>
      match skipWs r with
      | ',' :: r2 => (parseItems fuel (skipWs r2)).map fun p => (v :: p.1, p.2)
      | ']' :: r2 => some ([v], r2)
      | _ => none

def parseMembers : Nat → List Char → Option (List (String × JVal) × List Char)
  | 0, _ => none
  | fuel + 1, cs =>
    match cs with
    | '"' :: r0 =>
      match parseStrBody r0 with
      | none => none
      | some (k, r1) =>
        match skipWs r1 with
        | ':' :: r2 =>
          match parseVal fuel (skipWs r2) with
          | none => none
          | some (v, r3) =>
            match skipWs r3 with
            | ',' :: r4 =>
              (parseMembers fuel (skipWs r4)).map fun p => ((⟨k⟩, v) :: p.1, p.2)
            | '}' :: r4 => some ([(⟨k⟩, v)], r4)
            | _ => none
        | _ => none
    | _ => none

end

/-- Model of Python `json.loads`: scan one value, then require only
whitespace to remain.  Parse failure (Python raising `JSONDecodeError`) is
`none`. -/
def loads (s : String) : Option JVal :=
  let cs := skipWs s.data
  match parseVal (2 * cs.length + 4) cs with
  | some (v, rest) => if skipWs rest = [] then some v else none
  | none => none

/-! ### Python value coercions (`str()`, truthiness) -/

/-- Python truthiness of a JSON-modelled value. -/
def jTruthy : JVal → Bool
  | .null => false
  | .bool b => b
  | .int n => n ≠ 0
  | .str s => s ≠ ""
  | .arr xs => !xs.isEmpty
  | .obj kvs => !kvs.isEmpty

/-- A single-quote character (for Python `repr` of strings). -/
def sq : String := ⟨[Char.ofNat 39]⟩

/- Model of Python `str()` / `repr()` on JSON-modelled values (fragment:
exact escaping inside `repr` of nested strings is not modelled; the
repository only ever observes that the coercion yields some string). -/
mutual

def pyStr : JVal → String
  | .null => "None"
  | .bool true => "True"
  | .bool false => "False"
  | .int n => ⟨dumpInt n⟩
  | .str s => s
  | .arr xs => "[" ++ pyReprA xs ++ "]"
  | .obj kvs => "\x7b" ++ pyReprO kvs ++ "\x7d"

def pyRepr : JVal → String
  | .null => "None"
  | .bool true => "True"
  | .bool false => "False"
  | .int n => ⟨dumpInt n⟩
  | .str s => sq ++ s ++ sq
  | .arr xs => "[" ++ pyReprA xs ++ "]"
  | .obj kvs => "\x7b" ++ pyReprO kvs ++ "\x7d"

def pyReprA : List JVal → String
  | [] => ""
  | [v] => pyRepr v
  | v :: vs => pyRepr v ++ ", " ++ pyReprA vs

def pyReprO : List (String × JVal) → String
  | [] => ""
  | [(k, v)] => sq ++ k ++ sq ++ ": " ++ pyRepr v
  | (k, v) :: kvs => sq ++ k ++ sq ++ ": " ++ pyRepr v ++ ", " ++ pyReprO kvs

end

/-! ### Calendar arithmetic (model of `datetime`'s proleptic Gregorian
calendar; timestamps are POSIX seconds as integers) -/

/-- Gregorian leap year. -/
def isLeap (y : Nat) : Bool := (y % 4 = 0 && y % 100 ≠ 0) || y % 400 = 0

/-- Length of month `m` of year `y`. -/
def daysInMonth (y m : Nat) : Nat :=
  if m = 2 then (if isLeap y then 29 else 28)
  else if m = 4 || m = 6 || m = 9 || m = 11 then 30
  else 31

/-- Days from 1 January to the first day of month `m` of year `y`. -/
def daysBeforeMonth (y : Nat) : Nat → Nat
  | 0 => 0
  | 1 => 0
  | m + 1 => daysBeforeMonth y m + daysInMonth y m

/-- Days from 0001-01-01 to the first day of year `y` (`y ≥ 1`). -/
def daysBeforeYear (y : Nat) : Nat :=
  let n := y - 1
  365 * n + n / 4 + n / 400 - n / 100

/-- Zero-based ordinal day of a civil date (0 = 0001-01-01). -/
def toOrdinal (y m d : Nat) : Nat :=
  daysBeforeYear y + daysBeforeMonth y m + (d - 1)

/-- Ordinal day of the POSIX epoch. -/
def epochOrdinal : Nat := toOrdinal 1970 1 1

/-- POSIX seconds of a UTC civil datetime. -/
def civilSecs (y m d h mi s : Nat) : Int :=
  ((toOrdinal y m d : Int) - (epochOrdinal : Int)) * 86400 +
    ((h * 3600 + mi * 60 + s : Nat) : Int)

/-- Inverse of `toOrdinal` (Gregorian civil-from-days). -/
def civilOfOrd (ord : Nat) : Nat × Nat × Nat :=
  let za := ord + 306
  let era := za / 146097
  let doe := za % 146097
  let yoe := (doe - doe / 1460 + doe / 36524 - doe / 146096) / 365
  let y := yoe + era * 400
  let doy := doe - (365 * yoe + yoe / 4 - yoe / 100)
  let mp := (5 * doy + 2) / 153
  let d := doy - (153 * mp + 2) / 5 + 1
  let m := if mp < 10 then mp + 3 else mp - 9
  (if m ≤ 2 then y + 1 else y, m, d)

/-- Two-digit zero-padded decimal. -/
def pad2 (n : Nat) : String :=
  if n < 10 then "0" ++ (⟨dumpNat n⟩ : String) else ⟨dumpNat n⟩

/-- Four-digit zero-padded decimal. -/
def pad4 (n : Nat) : String :=
  if n < 10 then "000" ++ (⟨dumpNat n⟩ : String)
  else if n < 100 then "00" ++ (⟨dumpNat n⟩ : String)
  else if n < 1000 then "0" ++ (⟨dumpNat n⟩ : String)
  else ⟨dumpNat n⟩

/-- Render a POSIX timestamp as an aware-UTC `datetime.isoformat()` string
(`YYYY-MM-DDTHH:MM:SS+00:00`; sub-second part is zero in this model). -/
def isoUtc (t : Int) : String :=
  let day : Int := Int.ediv t 86400
  let sod : Nat := (Int.emod t 86400).toNat
  let ordZ : Int := day + 719162
  if ordZ < 0 then ""
  else
    match civilOfOrd ordZ.toNat with
    | (y, m, d) =>
      pad4 y ++ "-" ++ pad2 m ++ "-" ++ pad2 d ++ "T" ++
      pad2 (sod / 3600) ++ ":" ++ pad2 (sod % 3600 / 60) ++ ":" ++
      pad2 (sod % 60) ++ "+00:00"

/-- Render the JST (UTC+9) calendar date of a POSIX timestamp as
`YYYY-MM-DD` (`strftime` after `astimezone(JST)`). -/
def dateJst (t : Int) : String :=
  let tj := t + 9 * 3600
  let day : Int := Int.ediv tj 86400
  let ordZ : Int := day + 719162
  if ordZ < 0 then ""
  else
    match civilOfOrd ordZ.toNat with
    | (y, m, d) => pad4 y ++ "-" ++ pad2 m ++ "-" ++ pad2 d

/-! ### Timestamp string parsing (`datetime.fromisoformat` /
`datetime.strptime` fragments) -/

/-- Read exactly `k` ASCII digits, accumulating their value. -/
def parseFixedAux : Nat → Nat → List Char → Option (Nat × List Char)
  | 0, acc, cs => some (acc, cs)
  | _ + 1, _, [] => none
  | k + 1, acc, c :: cs =>
    if isDigitChar c then parseFixedAux k (acc * 10 + digitVal c) cs else none

/-- Read exactly `k` ASCII digits. -/
def parseFixed (k : Nat) (cs : List Char) : Option (Nat × List Char) :=
  parseFixedAux k 0 cs

/-- Expect one specific character. -/
def expectChar (c : Char) : List Char → Option (List Char)
  | [] => none
  | x :: rest => if x = c then some rest else none

/-- Read one or two ASCII digits (the lenient `strptime` field width). -/
def parseFlex (cs : List Char) : Option (Nat × List Char) :=
  match cs with
  | [] => none
  | c :: rest =>
    if isDigitChar c then
      match rest with
      | c2 :: rest2 =>
        if isDigitChar c2 then some (digitVal c * 10 + digitVal c2, rest2)
        else some (digitVal c, rest)
      | [] => some (digitVal c, [])
    else none

/-- Read `HH:MM[:SS]` (fractional seconds are outside the model and are
rejected). -/
def parseHMS (cs : List Char) : Option ((Nat × Nat × Nat) × List Char) :=
  match parseFixed 2 cs with
  | none => none
  | some (hh, cs1) =>
    match expectChar ':' cs1 with
    | none => none
    | some cs2 =>
      match parseFixed 2 cs2 with
      | none => none
      | some (mm, cs3) =>
        match cs3 with
        | ':' :: cs4 =>
          match parseFixed 2 cs4 with
          | none => none
          | some (ss, cs5) =>
            match cs5 with
            | '.' :: _ => none
            | ',' :: _ => none
            | _ => some ((hh, mm, ss), cs5)
        | '.' :: _ => none
        | ',' :: _ => none
        | _ => some ((hh, mm, 0), cs3)

/-- Read an optional trailing `±HH:MM` UTC offset, in minutes. -/
def parseOff (cs : List Char) : Option (Option Int × List Char) :=
  match cs with
  | '+' :: cs1 =>
    match parseHMS cs1 with
    | some ((oh, om, osec), rest) =>
      if oh ≤ 23 && om ≤ 59 && osec = 0 then
        some (some ((oh * 60 + om : Nat) : Int), rest)
      else none
    | none => none
  | '-' :: cs1 =>
    match parseHMS cs1 with
    | some ((oh, om, osec), rest) =>
      if oh ≤ 23 && om ≤ 59 && osec = 0 then
        some (some (-((oh * 60 + om : Nat) : Int)), rest)
      else none
    | none => none
  | _ => some (none, cs)

/-- Model of `datetime.fromisoformat` (fragment used by the repository):
`YYYY-MM-DD`, optionally followed by any single separator character and
`HH:MM[:SS]`, optionally followed by `±HH:MM`.  Returns the naive civil
time as POSIX-style seconds plus the explicit offset in minutes when one
was present.  Returns `none` on anything invalid (which Python raises
`ValueError` for). -/
def fromIso (s : String) : Option (Int × Option Int) :=
  match parseFixed 4 s.data with
  | none => none
  | some (y, cs1) =>
    match expectChar '-' cs1 with
    | none => none
    | some cs2 =>
      match parseFixed 2 cs2 with
      | none => none
      | some (m, cs3) =>
        match expectChar '-' cs3 with
        | none => none
        | some cs4 =>
          match parseFixed 2 cs4 with
          | none => none
          | some (d, cs5) =>
            if 1 ≤ y && 1 ≤ m && m ≤ 12 && 1 ≤ d && d ≤ daysInMonth y m then
              match cs5 with
              | [] => some (civilSecs y m d 0 0 0, none)
              | _ :: cs6 =>
                match parseHMS cs6 with
                | none => none
                | some ((hh, mi, ss), cs7) =>
                  if hh ≤ 23 && mi ≤ 59 && ss ≤ 59 then
                    match parseOff cs7 with
                    | some (off, []) => some (civilSecs y m d hh mi ss, off)
                    | _ => none
                  else none
            else none

/-- Model of `datetime.strptime(s, "%Y-<sep>%m<sep>%d %H:%M:%S")` for a date
separator `sep` (`'-'` or `'/'`), as naive POSIX-style seconds.  `strptime`
accepts 1-2 digit month/day/time fields and validates ranges. -/
def strptimeYmdHms (sep : Char) (s : String) : Option Int :=
  match parseFixed 4 s.data with
  | none => none
  | some (y, cs1) =>
    match expectChar sep cs1 with
    | none => none
    | some cs2 =>
      match parseFlex cs2 with
      | none => none
      | some (m, cs3) =>
        match expectChar sep cs3 with
        | none => none
        | some cs4 =>
          match parseFlex cs4 with
          | none => none
          | some (d, cs5) =>
            match expectChar ' ' cs5 with
            | none => none
            | some cs6 =>
              match parseFlex cs6 with
              | none => none
              | some (hh, cs7) =>
                match expectChar ':' cs7 with
                | none => none
                | some cs8 =>
                  match parseFlex cs8 with
                  | none => none
                  | some (mi, cs9) =>
                    match expectChar ':' cs9 with
                    | none => none
                    | some cs10 =>
                      match parseFlex cs10 with
                      | none => none
                      | some (ss, cs11) =>
                        if cs11 = [] && 1 ≤ y && 1 ≤ m && m ≤ 12 && 1 ≤ d &&
                            d ≤ daysInMonth y m && hh ≤ 23 && mi ≤ 59 && ss ≤ 59 then
                          some (civilSecs y m d hh mi ss)
                        else none

/-! ### Small string utilities shared by the embedded functions -/

/-- Model of `s.replace("Z", "+00:00")` (single-character pattern). -/
def replaceZ : List Char → List Char
  | [] => []
  | c :: rest =>
    if c = 'Z' then '+' :: '0' :: '0' :: ':' :: '0' :: '0' :: replaceZ rest
    else c :: replaceZ rest

/-- Occurrence of `pat` anywhere in the list (Python `pat in s`). -/
def hasSubAux (pat : List Char) : List Char → Bool
  | [] => pat.isEmpty
  | c :: rest => List.isPrefixOf pat (c :: rest) || hasSubAux pat rest

/-- Python `sub in s`. -/
def containsSub (s sub : String) : Bool := hasSubAux sub.data s.data

/-- Python `s.endswith(sub)`. -/
def endsWithSub (s sub : String) : Bool := List.isSuffixOf sub.data s.data

/-- ASCII letter test. -/
def isAlphaAscii (c : Char) : Bool :=
  ('a' ≤ c && c ≤ 'z') || ('A' ≤ c && c ≤ 'Z')

/-- ASCII alphanumeric test (`[a-zA-Z0-9]`). -/
def isAlnumAscii (c : Char) : Bool := isAlphaAscii c || isDigitChar c

/-- The backquote character. -/
def btick : Char := Char.ofNat 96

/-- Python `dict.get` on the association-list model (`None` when absent). -/
def dGet : List (String × JVal) → String → Option JVal
  | [], _ => none
  | (k2, v) :: rest, k => if k2 = k then some v else dGet rest k

/-- Python `dict.get` with the `None` default materialized as `JVal.null`. -/
def dGetD (kvs : List (String × JVal)) (k : String) : JVal :=
  match dGet kvs k with
  | some v => v
  | none => .null

/-- Python `k in payload` on the association-list model. -/
def hasKey (kvs : List (String × JVal)) (k : String) : Bool :=
  kvs.any (fun kv => kv.1 = k)

/-- A Python exception kind observable from the embedded fragments. -/
inductive PyErr where
  | attributeError
deriving Repr

/-- Python `v.get(key)`: total on dicts, `AttributeError` otherwise. -/
def jGetAttr (v : JVal) (k : String) : Except PyErr JVal :=
  match v with
  | .obj kvs => .ok (dGetD kvs k)
  | _ => .error .attributeError

/-! ### src/tdnet.py -/

namespace Tdnet

/-- tdnet.py `_parse_dt_maybe`: parse a feed timestamp string.  `Z` is
rewritten to `+00:00`; ISO-8601 first, then `"%Y-%m-%d %H:%M:%S"`.
A timestamp with no offset is given `tzinfo=timezone.utc`, i.e. it is
interpreted as UTC civil time.  Empty or unparseable input yields `none`
(the `None` of the source). -/
def _parse_dt_maybe (value : String) : Option Int :=
  if value = "" then none
  else
    let s : String := ⟨replaceZ (pyStrip value).data⟩
    match fromIso s with
    | some (naive, some off) => some (naive - off * 60)
    | some (naive, none) => some naive
    | none =>
      match strptimeYmdHms '-' s with
      | some naive => some naive
      | none => none

/-- tdnet.py `_pick_first`: first alias value that is non-`None` and has a
non-empty stripped string form; numbers and other values are coerced with
`str(...)`. -/
def _pick_first : List JVal → String
  | [] => ""
  | v :: rest =>
    match v with
    | .null => _pick_first rest
    | .str s =>
      let vv := pyStrip s
      if vv ≠ "" then vv else _pick_first rest
    | _ =>
      let vv := pyStrip (pyStr v)
      if vv ≠ "" then vv else _pick_first rest

/-- tdnet.py `_unwrap_tdnet`: unwrap one of the wrapper keys `TDnet`,
`Tdnet`, `tdnet` when (and only when) its value is a dict; otherwise the
record itself. -/
def _unwrap_tdnet (raw : List (String × JVal)) : JVal :=
  match dGet raw "TDnet" with
  | some (.obj td) => .obj td
  | _ =>
    match dGet raw "Tdnet" with
    | some (.obj td) => .obj td
    | _ =>
      match dGet raw "tdnet" with
      | some (.obj td) => .obj td
      | _ => .obj raw

/-- The normalized item shape produced by tdnet.py `_normalize_item`. -/
structure DisclosureItem where
  title : String
  code : String
  doc_url : String
  link : String
  published_at : Option Int
  raw : JVal
deriving Repr

/-- tdnet.py `_normalize_item`: alias-list extraction over the unwrapped
record.  Dictionary access is the fallible Python attribute access
(`.get` raises on a non-dict), so totality is a theorem, not a typing
artifact. -/
def _normalize_item (raw : List (String × JVal)) : Except PyErr DisclosureItem := do
  let td := _unwrap_tdnet raw
  let title := _pick_first [← jGetAttr td "title", ← jGetAttr td "Title",
    ← jGetAttr td "subject", ← jGetAttr td "Subject"]
  let code := _pick_first [← jGetAttr td "code", ← jGetAttr td "Code",
    ← jGetAttr td "company_code", ← jGetAttr td "ticker"]
  let doc_url := _pick_first [← jGetAttr td "document_url", ← jGetAttr td "documentUrl",
    ← jGetAttr td "doc_url", ← jGetAttr td "pdf_url", ← jGetAttr td "pdfUrl",
    ← jGetAttr td "pdf", ← jGetAttr td "attachment_url", ← jGetAttr td "attachmentUrl"]
  let link := _pick_first [← jGetAttr td "url", ← jGetAttr td "link",
    ← jGetAttr td "detail_url", ← jGetAttr td "detailUrl"]
  let published_raw := _pick_first [← jGetAttr td "published_at", ← jGetAttr td "publishedAt",
    ← jGetAttr td "pubdate", ← jGetAttr td "date", ← jGetAttr td "datetime"]
  let published_at := _parse_dt_maybe published_raw
  return ⟨title, code, doc_url, link, published_at, td⟩

end Tdnet

/-! ### app.py (screening helpers) -/

namespace App

/-- app.py `_parse_dt_any`: like the tdnet parser, but a timestamp with no
offset is interpreted as JST (UTC+9) civil time, and a `"%Y/%m/%d
%H:%M:%S"` fallback is also accepted. -/
def _parse_dt_any (value : JVal) : Option Int :=
  if jTruthy value = false then none
  else
    let s := pyStrip (pyStr value)
    if s = "" then none
    else
      let s_iso : String := ⟨replaceZ s.data⟩
      match fromIso s_iso with
      | some (naive, some off) => some (naive - off * 60)
      | some (naive, none) => some (naive - 540 * 60)
      | none =>
        match strptimeYmdHms '-' s with
        | some naive => some (naive - 540 * 60)
        | none =>
          match strptimeYmdHms '/' s with
          | some naive => some (naive - 540 * 60)
          | none => none

/-- app.py `is_kessan`: the `_KESSAN_RE` alternation of literal terms,
searched case-insensitively. -/
def is_kessan (title : String) : Bool :=
  let t := pyLower title
  containsSub t "決算短信" || containsSub t "四半期決算" || containsSub t "通期決算" ||
  containsSub t "financial results" || containsSub t "earnings" || containsSub t "results"

/-- app.py `_is_allowed_pdf_url`: the UI-level pre-check (substring-based;
the stronger, host-parsing check lives in analyzer.py and guards the
actual download). -/
def _is_allowed_pdf_url (url : String) : Bool :=
  let u := pyStrip url
  if u = "" then false
  else
    let u_low := pyLower u
    if containsSub u_low "release.tdnet.info" && endsWithSub u_low ".pdf" then true
    else if containsSub u_low "webapi.yanoshin.jp/rd.php?" &&
        containsSub u_low "release.tdnet.info" && containsSub u_low ".pdf" then true
    else false

/-- One entry of app.py's `normalized` list (title/code/doc_url strings plus
the UTC `published_at` datetime-or-None). -/
structure NItem where
  title : String
  code : String
  code_raw : String
  doc_url : String
  published_at : Option Int
deriving Repr, DecidableEq

/-- app.py `apply_filters`: keep an item unless the earnings-title filter,
the document-URL filter, or the date cutoff rejects it.  An item whose
`published_at` is absent is never rejected by the cutoff
(`isinstance(published, datetime) and published < cutoff_utc`). -/
def apply_filters (normalized : List NItem) (use_kessan only_has_doc_url : Bool)
    (cutoff_utc : Int) : List NItem :=
  match normalized with
  | [] => []
  | it :: rest =>
    let title := it.title
    let doc_url := pyStrip it.doc_url
    if use_kessan && !is_kessan title then
      apply_filters rest use_kessan only_has_doc_url cutoff_utc
    else if only_has_doc_url && doc_url = "" then
      apply_filters rest use_kessan only_has_doc_url cutoff_utc
    else
      match it.published_at with
      | some published =>
        if published < cutoff_utc then
          apply_filters rest use_kessan only_has_doc_url cutoff_utc
        else it :: apply_filters rest use_kessan only_has_doc_url cutoff_utc
      | none => it :: apply_filters rest use_kessan only_has_doc_url cutoff_utc

/-- app.py lines 293-296: run the strict filter; when `only_kessan` was
requested and it selected nothing, rerun with the earnings filter disabled
(the returned flag models the `st.info` disclosure that relaxation
happened). -/
def screen (normalized : List NItem) (only_kessan only_has_doc_url : Bool)
    (cutoff_utc : Int) : List NItem × Bool :=
  let filtered := apply_filters normalized only_kessan only_has_doc_url cutoff_utc
  if only_kessan && filtered.isEmpty then
    (apply_filters normalized false only_has_doc_url cutoff_utc, true)
  else (filtered, false)

end App

/-! ### src/analyzer.py -/

namespace Analyzer

/-- Valid non-initial scheme character for `urllib.parse` (`[a-z0-9+.-]`,
case-insensitive). -/
def validSchemeChar (c : Char) : Bool :=
  isAlphaAscii c || isDigitChar c || c = '+' || c = '-' || c = '.'

/-- Scheme split of `urllib.parse.urlsplit`: a leading `name:` is a scheme
when `name` is non-empty, starts with a letter and uses scheme characters
only; otherwise there is no scheme. -/
def splitScheme (cs : List Char) : List Char × List Char :=
  let pre := cs.takeWhile (fun c => c != ':')
  let post := cs.dropWhile (fun c => c != ':')
  match post with
  | ':' :: rest =>
    match pre with
    | [] => ([], cs)
    | c0 :: _ =>
      if isAlphaAscii c0 && pre.all validSchemeChar then (pre.map lowerChar, rest)
      else ([], cs)
  | _ => ([], cs)

/-- A character that ends the authority component. -/
def netlocEnd (c : Char) : Bool := c = '/' || c = '?' || c = '#'

/-- Model of `urllib.parse.urlparse` restricted to the triple the code
reads: `(scheme, netloc, path)`.  The netloc is present only after `//`;
the path stops at a query or fragment. -/
def urlparse3 (url : String) : String × String × String :=
  let (sch, rest) := splitScheme url.data
  let (netloc, rest2) :=
    match rest with
    | '/' :: '/' :: r => (r.takeWhile (fun c => !netlocEnd c), r.dropWhile (fun c => !netlocEnd c))
    | _ => ([], rest)
  let path := rest2.takeWhile (fun c => !(c = '?' || c = '#'))
  (⟨sch⟩, ⟨netloc⟩, ⟨path⟩)

/-- The part of the authority after the last `@` (drop userinfo). -/
def afterLastAt (cs : List Char) : List Char :=
  (cs.reverse.takeWhile (fun c => c != '@')).reverse

/-- Model of the `.hostname` property: strip userinfo, strip the port (or
take the bracketed IPv6 literal), lower-case; empty string for `None`. -/
def hostnameOf (netloc : String) : String :=
  match afterLastAt netloc.data with
  | '[' :: rest => ⟨(rest.takeWhile (fun c => c != ']')).map lowerChar⟩
  | hi => ⟨(hi.takeWhile (fun c => c != ':')).map lowerChar⟩

/-- analyzer.py `ALLOWED_HOST_SUFFIXES`. -/
def ALLOWED_HOST_SUFFIXES : List String := ["release.tdnet.info"]

/-- analyzer.py `_is_allowed_pdf_url`: http(s) scheme, non-empty hostname
equal to or a subdomain of an allowed suffix, and a `.pdf` path. -/
def _is_allowed_pdf_url (url : String) : Bool :=
  let p := urlparse3 url
  let scheme := p.1
  let netloc := p.2.1
  let path := p.2.2
  if !(scheme = "http" || scheme = "https") then false
  else
    let host := pyLower (hostnameOf netloc)
    if host = "" then false
    else if !(ALLOWED_HOST_SUFFIXES.any fun sfx =>
        host = sfx || endsWithSub host ("." ++ sfx)) then false
    else if !(endsWithSub (pyLower path) ".pdf") then false
    else true

/-- analyzer.py `_strip_code_fences`: strip, remove a leading
    three-backquote fence with its info string and following whitespace,
remove a trailing whitespace+fence, strip again. -/
def _strip_code_fences (text : String) : String :=
  let t := pyStrip text
  let t2 :=
    if List.isPrefixOf [btick, btick, btick] t.data then
      let t1 := ((t.data.drop 3).dropWhile isAlnumAscii).dropWhile pyWs
      if List.isSuffixOf [btick, btick, btick] t1 then
        ((t1.reverse.drop 3).dropWhile pyWs).reverse
      else t1
    else t.data
  pyStrip ⟨t2⟩

/-- Index of the first occurrence of `c` (Python `str.find`). -/
def findCharIdx (c : Char) : List Char → Option Nat
  | [] => none
  | x :: rest =>
    if x = c then some 0
    else (findCharIdx c rest).map (· + 1)

/-- Index of the last occurrence of `c` (Python `str.rfind`). -/
def rfindCharIdx (c : Char) (cs : List Char) : Option Nat :=
  match findCharIdx c cs.reverse with
  | some i => some (cs.length - 1 - i)
  | none => none

/-- analyzer.py `_extract_first_json_object`: the slice from the first
opening brace to the last closing brace, the whole text when no such pair
exists. -/
def _extract_first_json_object (text : String) : String :=
  match findCharIdx (Char.ofNat 123) text.data, rfindCharIdx (Char.ofNat 125) text.data with
  | some s, some e =>
    if s < e then ⟨(text.data.take (e + 1)).drop s⟩ else text
  | _, _ => text

/-- The failures `analyze_pdf_to_json` and `_download_to_temp` can raise. -/
inductive AnalyzeErr where
  | notAllowedUrl
  | tooLarge
  | badContentType
  | jsonDecodeError
  | notAnObject
deriving Repr, DecidableEq

/-- Is the parsed value a JSON object (Python dict)? -/
def isObj : JVal → Bool
  | .obj _ => true
  | _ => false

/-- analyzer.py `analyze_pdf_to_json`, lines 214-228: the pure text-to-payload
part.  Strip the fences, slice the brace span, `json.loads`; on a decode
error retry the slice-and-strip once; a payload that is not an object is the
`ValueError("AI output is not a JSON object")`; a second decode failure
propagates `json.JSONDecodeError`.  (The `_ensure_schema` defaulting applied
to a successful payload afterwards is not part of this fragment.) -/
def parse_llm_payload (text : String) : Except AnalyzeErr JVal :=
  let t0 := pyStrip text
  let t1 := _strip_code_fences t0
  let t2 := _extract_first_json_object t1
  match loads t2 with
  | some p => if isObj p then .ok p else .error .notAnObject
  | none =>
    let c1 := _extract_first_json_object t2
    let c2 := _strip_code_fences c1
    match loads c2 with
    | some p => if isObj p then .ok p else .error .notAnObject
    | none => .error .jsonDecodeError

/-- The streaming loop of `_download_to_temp`: skip empty chunks, add each
chunk's size to the running count, abort (close and delete the temp file,
raise) as soon as the count exceeds the limit — before the chunk is written
and before any further chunk is read.  Returns the outcome together with
how many chunks were consumed from the stream. -/
def dlLoop (max_bytes : Nat) : List (List Nat) → Nat → List Nat →
    Except AnalyzeErr (List Nat) × Nat
  | [], _, file => (.ok file, 0)
  | c :: rest, size, file =>
    if c.isEmpty then
      let r := dlLoop max_bytes rest size file
      (r.1, r.2 + 1)
    else
      let size2 := size + c.length
      if max_bytes < size2 then (.error .tooLarge, 1)
      else
        let r := dlLoop max_bytes rest size2 (file ++ c)
        (r.1, r.2 + 1)

/-- analyzer.py `_download_to_temp`: allowlist gate, optional HEAD
`Content-Length` pre-check, `text/html` content-type rejection, then the
streaming loop.  `chunks` is the byte stream as served (chunk = list of
bytes), `headContentLength` the `Content-Length` of a successful HEAD when
one was obtained.  Returns the outcome (the temp file's bytes, or the error
after which the partial file was deleted) and the number of chunks read. -/
def headCLBad (max_bytes : Nat) (headContentLength : Option Nat) : Bool :=
  match headContentLength with
  | some cl => decide (max_bytes < cl)
  | none => false

def _download_to_temp (url : String) (max_bytes : Nat)
    (headContentLength : Option Nat) (ctype : String)
    (chunks : List (List Nat)) : Except AnalyzeErr (List Nat) × Nat :=
  if !(_is_allowed_pdf_url url) then (.error .notAllowedUrl, 0)
  else
    if headCLBad max_bytes headContentLength then (.error .tooLarge, 0)
    else if containsSub (pyLower ctype) "text/html" then (.error .badContentType, 0)
    else dlLoop max_bytes chunks 0 []

end Analyzer

/-! ### src/storage.py -/

namespace Storage

/-- One row of the `analyses` table (full current schema). -/
structure Row where
  code : String
  title : String
  published_at : String
  payload_json : String
  created_at : String
  model : Option String
  tokens : Option Int
  schema_version : Option Int
  code4 : String
  published_date_jst : String
  doc_type : String
deriving Repr

/-- The `analyses` table: rows keyed by the `doc_url` primary key. -/
abbrev Store := List (String × Row)

/-- Row lookup by primary key. -/
def lookupRow : Store → String → Option Row
  | [], _ => none
  | (u2, r) :: rest, u => if u2 = u then some r else lookupRow rest u

/-- Delete any row with the given key. -/
def deleteRow (db : Store) (u : String) : Store :=
  db.filter (fun kv => kv.1 != u)

/-- `INSERT OR REPLACE` keyed on the primary key: the old row (if any) is
replaced, leaving exactly one row for the key. -/
def upsert (db : Store) (u : String) (r : Row) : Store :=
  deleteRow db u ++ [(u, r)]

/-- Number of rows with the given key. -/
def rowCount (db : Store) (u : String) : Nat :=
  (db.filter (fun kv => kv.1 = u)).length

/-- storage.py `_infer_model`. -/
def _infer_model (payload : JVal) : Option String :=
  match payload with
  | .obj kvs =>
    let v := dGetD kvs "model"
    if jTruthy v then some (pyStrip (pyStr v)) else none
  | _ => none

/-- storage.py `_infer_tokens` (`isinstance(v, int)` also covers Python
booleans; a non-empty all-digit string is converted). -/
def _infer_tokens (payload : JVal) : Option Int :=
  match payload with
  | .obj kvs =>
    match dGetD kvs "tokens" with
    | .bool b => some (if b then 1 else 0)
    | .int n => some n
    | .str s => if s ≠ "" && s.data.all isDigitChar then some ((natOfDigits s.data : Nat) : Int) else none
    | _ => none
  | _ => none

/-- storage.py `_infer_schema_version`. -/
def _infer_schema_version (payload : JVal) : Option Int :=
  match payload with
  | .obj kvs =>
    match dGetD kvs "schema_version" with
    | .bool b => some (if b then 1 else 0)
    | .int n => some n
    | _ =>
      match dGetD kvs "result" with
      | .obj _ => some 2
      | _ =>
        if hasKey kvs "summary_1min" || hasKey kvs "headline" || hasKey kvs "watch_points" then
          some 1
        else none
  | _ => none

/-- storage.py `_infer_doc_type`. -/
def _infer_doc_type (title : String) : String :=
  let t := title
  let tl := pyLower t
  if containsSub t "決算短信" || containsSub tl "financial results" || containsSub tl "earnings" then
    "kessan"
  else if containsSub t "決算説明" || containsSub t "説明資料" ||
      containsSub tl "presentation" || containsSub tl "briefing" then
    "briefing"
  else "other"

/-- The row `save_analysis` builds for one write (its column tuple);
storage.py `save_analysis` derives the denormalized columns here.  `now`
stands for `datetime.now(timezone.utc).isoformat()`. -/
def rowFor (code title : String) (published_at : Option Int) (payload : JVal)
    (now : String) : Row :=
  let published_str := match published_at with
    | none => ""
    | some t => isoUtc t
  let date_jst := match published_at with
    | none => ""
    | some t => dateJst t
  let code4 : String := if pyStrip code ≠ "" then ⟨(pyStrip code).data.take 4⟩ else ""
  ⟨code, title, published_str, dumps payload, now,
    _infer_model payload, _infer_tokens payload, _infer_schema_version payload,
    code4, date_jst, _infer_doc_type title⟩

/-- storage.py `save_analysis`: no-op on an empty identity; otherwise
`INSERT OR REPLACE` one row keyed by `doc_url`. -/
def save_analysis (db : Store) (doc_url code title : String)
    (published_at : Option Int) (payload : JVal) (now : String) : Store :=
  if doc_url = "" then db
  else upsert db doc_url (rowFor code title published_at payload now)

/-- One conditional metadata insertion of `get_cached_analysis`
(`if <column truthy> and <key> not in payload: payload[<key>] = <column>`;
Python dict insertion appends the new key). -/
def inj1 (kvs : List (String × JVal)) (cond : Bool) (k : String) (v : JVal) :
    List (String × JVal) :=
  if cond && !(hasKey kvs k) then kvs ++ [(k, v)] else kvs

/-- storage.py `get_cached_analysis`, payload post-processing: write the
denormalized columns into the parsed payload under their key when the
column has a value and the key is absent. -/
def injectMeta (row : Row) (kvs : List (String × JVal)) : List (String × JVal) :=
  let k1 := inj1 kvs (match row.model with | some m => m ≠ "" | none => false)
    "model" (.str (row.model.getD ""))
  let k2 := inj1 k1 row.tokens.isSome "tokens" (.int (row.tokens.getD 0))
  let k3 := inj1 k2 row.schema_version.isSome "schema_version"
    (.int (row.schema_version.getD 0))
  let k4 := inj1 k3 (row.code4 ≠ "") "code4" (.str row.code4)
  let k5 := inj1 k4 (row.published_date_jst ≠ "") "published_date_jst"
    (.str row.published_date_jst)
  inj1 k5 (row.doc_type ≠ "") "doc_type" (.str row.doc_type)

/-- storage.py `get_cached_analysis`: `None` for an empty identity (before
any connection is opened — the Bool reports whether the store was touched),
`None` when the row is absent, `None` when the stored payload does not
parse as JSON or parses to a non-object (the `try/except` around
`json.loads` and the `isinstance(payload, dict)` check); otherwise the
parsed object with the denormalized columns injected. -/
def get_cached_analysis (db : Store) (doc_url : String) : Option JVal × Bool :=
  if doc_url = "" then (none, false)
  else
    match lookupRow db doc_url with
    | none => (none, true)
    | some row =>
      match loads row.payload_json with
      | some (.obj kvs) => (some (.obj (injectMeta row kvs)), true)
      | some _ => (none, true)
      | none => (none, true)

end Storage

/-! ### The analyze-then-cache composition (app.py lines 405-416) -/

/-- app.py's AI-analysis action: download the PDF, run the model on it
(`llmText` is the transport-level response text), parse the payload, and
only on full success write the cache row.  Any failure leaves the store
untouched. -/
def analyze_and_save (db : Storage.Store) (doc_url code4 title : String)
    (published : Option Int) (max_bytes : Nat) (hcl : Option Nat) (ctype : String)
    (chunks : List (List Nat)) (llmText : String) (now : String) :
    Storage.Store × Except Analyzer.AnalyzeErr JVal :=
  match Analyzer._download_to_temp doc_url max_bytes hcl ctype chunks with
  | (.error e, _) => (db, .error e)
  | (.ok _, _) =>
    match Analyzer.parse_llm_payload llmText with
    | .error e => (db, .error e)
    | .ok payload =>
      (Storage.save_analysis db doc_url code4 title published payload now, .ok payload)

/-! ### Derived notions used by the specification statements -/

/-- The host component the analyzer's allowlist check inspects. -/
def Analyzer.urlHost (url : String) : String :=
  pyLower (Analyzer.hostnameOf (Analyzer.urlparse3 url).2.1)

/-- The path component the analyzer's allowlist check inspects. -/
def Analyzer.urlPath (url : String) : String := (Analyzer.urlparse3 url).2.2

/-- The per-item predicate applied by app.py `apply_filters`: pass the
earnings-title filter (when on), have a document URL (when required), and
not be strictly older than the cutoff — an absent timestamp passes. -/
def App.passes (use_kessan only_has_doc_url : Bool) (cutoff : Int)
    (it : App.NItem) : Bool :=
  (!use_kessan || App.is_kessan it.title) &&
  (!only_has_doc_url || !(decide (pyStrip it.doc_url = ""))) &&
  (match it.published_at with
   | some t => !(decide (t < cutoff))
   | none => true)

/-- The denormalized-column keys that `get_cached_analysis` may add to a
payload it returns. -/
def Storage.derivedKeys : List String :=
  ["model", "tokens", "schema_version", "code4", "published_date_jst", "doc_type"]

/-- Neither an opening nor a closing brace. -/
def braceFree (c : Char) : Bool :=
  !(c = Char.ofNat 123 || c = Char.ofNat 125)

/-- Total byte count of a chunk stream. -/
def sumLen (xs : List (List Nat)) : Nat := (xs.map List.length).sum

/-- Characters that may legally follow a serialized value inside a JSON
document (the continuation never extends a numeric literal). -/
def valStop : List Char → Bool
  | [] => true
  | c :: _ => !(isDigitChar c || c = '.' || c = 'e' || c = 'E')

/-- A continuation whose head is not a digit. -/
def headNotDigit : List Char → Bool
  | [] => true
  | c :: _ => !isDigitChar c

/-- Characters a serialized value can start with. -/
def startCh (c : Char) : Bool :=
  c = 'n' || c = 't' || c = 'f' || c = '"' || c = '[' || c = '{' ||
  c = '-' || isDigitChar c

/-! ### Round-trip: the scanner recovers what the serializer emitted -/

theorem isDigitChar_cases {c : Char} (h : isDigitChar c = true) :
    c = '0' ∨ c = '1' ∨ c = '2' ∨ c = '3' ∨ c = '4' ∨
    c = '5' ∨ c = '6' ∨ c = '7' ∨ c = '8' ∨ c = '9' := by
  simp only [isDigitChar, Bool.or_eq_true, decide_eq_true_eq] at h
  tauto

theorem digitChr_isDigit (m : Nat) : isDigitChar (digitChr m) = true := by
  have h : m % 10 < 10 := Nat.mod_lt _ (by omega)
  unfold digitChr
  interval_cases h : m % 10 <;> simp [h] <;> decide

theorem digitVal_digitChr {m : Nat} (h : m < 10) : digitVal (digitChr m) = m := by
  unfold digitChr
  rw [Nat.mod_eq_of_lt h]
  interval_cases m <;> decide

theorem digitChr_eq_zero {m : Nat} (h : m < 10) (hz : digitChr m = '0') : m = 0 := by
  unfold digitChr at hz
  rw [Nat.mod_eq_of_lt h] at hz
  interval_cases m <;> first | rfl | (exfalso; exact absurd hz (by decide))

theorem dumpNatAux_acc (fuel : Nat) :
    ∀ n acc, dumpNatAux fuel n acc = dumpNatAux fuel n [] ++ acc := by
  induction fuel with
  | zero => intro n acc; simp [dumpNatAux]
  | succ fuel ih =>
    intro n acc
    simp only [dumpNatAux]
    by_cases h : n < 10
    · simp [h]
    · simp only [h, if_false]
      rw [ih (n / 10) (digitChr (n % 10) :: acc), ih (n / 10) [digitChr (n % 10)]]
      simp

theorem dumpNatAux_fuel (n : Nat) :
    ∀ f g acc, n < f → n < g → dumpNatAux f n acc = dumpNatAux g n acc := by
  induction n using Nat.strong_induction_on with
  | _ n ih =>
    intro f g acc hf hg
    match f, g with
    | f + 1, g + 1 =>
      simp only [dumpNatAux]
      by_cases h : n < 10
      · simp [h]
      · simp only [h, if_false]
        exact ih (n / 10) (Nat.div_lt_self (by omega) (by omega)) f g _ (by omega) (by omega)

theorem dumpNat_lt {n : Nat} (h : n < 10) : dumpNat n = [digitChr n] := by
  simp [dumpNat, dumpNatAux, h]

theorem dumpNat_ge {n : Nat} (h : ¬ n < 10) :
    dumpNat n = dumpNat (n / 10) ++ [digitChr (n % 10)] := by
  have hd : n / 10 < n := Nat.div_lt_self (by omega) (by omega)
  have h1 : dumpNat n = dumpNatAux n (n / 10) [digitChr (n % 10)] := by
    simp [dumpNat, dumpNatAux, h]
  rw [h1, dumpNatAux_acc, dumpNatAux_fuel (n / 10) n (n / 10 + 1) [] (by omega) (by omega)]
  rfl

theorem dumpNat_ne_nil (n : Nat) : dumpNat n ≠ [] := by
  by_cases h : n < 10
  · rw [dumpNat_lt h]; simp
  · rw [dumpNat_ge h]; simp

theorem dumpNat_all_digits (n : Nat) : (dumpNat n).all isDigitChar = true := by
  induction n using Nat.strong_induction_on with
  | _ n ih =>
    by_cases h : n < 10
    · rw [dumpNat_lt h]; simp [digitChr_isDigit]
    · rw [dumpNat_ge h]
      simp only [List.all_append, Bool.and_eq_true]
      exact ⟨ih (n / 10) (Nat.div_lt_self (by omega) (by omega)),
             by simp [digitChr_isDigit]⟩

theorem natOfDigits_append_one (ds : List Char) (c : Char) :
    natOfDigits (ds ++ [c]) = 10 * natOfDigits ds + digitVal c := by
  simp [natOfDigits, List.foldl_append, Nat.mul_comm]

theorem natOfDigits_dumpNat (n : Nat) : natOfDigits (dumpNat n) = n := by
  induction n using Nat.strong_induction_on with
  | _ n ih =>
    by_cases h : n < 10
    · rw [dumpNat_lt h]
      simp [natOfDigits, digitVal_digitChr h]
    · rw [dumpNat_ge h, natOfDigits_append_one,
          ih (n / 10) (Nat.div_lt_self (by omega) (by omega)),
          digitVal_digitChr (Nat.mod_lt _ (by omega))]
      omega

theorem dumpNat_head_zero {n : Nat} {ds : List Char}
    (h : dumpNat n = '0' :: ds) : n = 0 := by
  induction n using Nat.strong_induction_on generalizing ds with
  | _ n ih =>
    by_cases hn : n < 10
    · rw [dumpNat_lt hn] at h
      injection h with h1 _
      exact digitChr_eq_zero hn h1
    · rw [dumpNat_ge hn] at h
      obtain ⟨c, cs, hm⟩ : ∃ c cs, dumpNat (n / 10) = c :: cs := by
        cases hmm : dumpNat (n / 10) with
        | nil => exact absurd hmm (dumpNat_ne_nil _)
        | cons c cs => exact ⟨c, cs, rfl⟩
      rw [hm] at h
      simp only [List.cons_append, List.cons.injEq] at h
      have h0 : n / 10 = 0 :=
        ih (n / 10) (Nat.div_lt_self (by omega) (by omega)) (by rw [hm, h.1])
      omega

theorem valStop_headNotDigit {rest : List Char} (h : valStop rest = true) :
    headNotDigit rest = true := by
  cases rest with
  | nil => rfl
  | cons c cs =>
    simp only [valStop, Bool.not_eq_true', Bool.or_eq_false_iff,
      decide_eq_false_iff_not] at h
    simp [headNotDigit, h.1.1.1]

theorem valStop_intStop {rest : List Char} (h : valStop rest = true) :
    intStop rest = true := by
  cases rest with
  | nil => rfl
  | cons c cs =>
    simp only [valStop, Bool.not_eq_true', Bool.or_eq_false_iff,
      decide_eq_false_iff_not] at h
    simp [intStop, h.1.1.2, h.1.2, h.2]

theorem takeWhile_digits_append {ds : List Char} (rest : List Char)
    (hds : ds.all isDigitChar = true) (hrest : headNotDigit rest = true) :
    (ds ++ rest).takeWhile isDigitChar = ds ∧
    (ds ++ rest).dropWhile isDigitChar = rest := by
  induction ds with
  | nil =>
    cases rest with
    | nil => exact ⟨rfl, rfl⟩
    | cons c cs =>
      simp only [headNotDigit, Bool.not_eq_true'] at hrest
      simp [List.takeWhile_cons, List.dropWhile_cons, hrest]
  | cons d ds ih =>
    simp only [List.all_cons, Bool.and_eq_true] at hds
    have := ih hds.2
    simp [List.takeWhile_cons, List.dropWhile_cons, hds.1, this.1, this.2]

theorem parseNat_dump (n : Nat) (rest : List Char) (h : headNotDigit rest = true) :
    parseNat (dumpNat n ++ rest) = some (n, rest) := by
  obtain ⟨htake, hdrop⟩ := takeWhile_digits_append rest (dumpNat_all_digits n) h
  simp only [parseNat, htake, hdrop]
  rw [if_neg (dumpNat_ne_nil n)]
  have hz : ((dumpNat n).head? = some '0' && 1 < (dumpNat n).length) = false := by
    cases hm : dumpNat n with
    | nil => exact absurd hm (dumpNat_ne_nil n)
    | cons c cs =>
      by_cases hc : c = '0'
      · subst hc
        have h0 : n = 0 := dumpNat_head_zero hm
        subst h0
        have : dumpNat 0 = ['0'] := rfl
        rw [hm] at this
        injection this with _ h2
        subst h2
        simp
      · simp [List.head?, hc]
  rw [hz]
  simp [natOfDigits_dumpNat]

theorem parseIntTok_dump (n : Int) (rest : List Char) (h : valStop rest = true) :
    parseIntTok (dumpInt n ++ rest) = some (n, rest) := by
  have hnd := valStop_headNotDigit h
  have his := valStop_intStop h
  by_cases hneg : n < 0
  · have : dumpInt n = '-' :: dumpNat (-n).toNat := by simp [dumpInt, hneg]
    rw [this]
    simp only [List.cons_append, parseIntTok, parseNat_dump _ _ hnd, his, if_true]
    congr 2
    omega
  · have hd : dumpInt n = dumpNat n.toNat := by simp [dumpInt, hneg]
    rw [hd]
    obtain ⟨c, cs, hm⟩ : ∃ c cs, dumpNat n.toNat = c :: cs := by
      cases hmm : dumpNat n.toNat with
      | nil => exact absurd hmm (dumpNat_ne_nil _)
      | cons c cs => exact ⟨c, cs, rfl⟩
    have hcd : isDigitChar c = true := by
      have := dumpNat_all_digits n.toNat
      rw [hm] at this
      simp only [List.all_cons, Bool.and_eq_true] at this
      exact this.1
    have hcne : c ≠ '-' := by
      rcases isDigitChar_cases hcd with rfl|rfl|rfl|rfl|rfl|rfl|rfl|rfl|rfl|rfl <;> decide
    rw [hm]
    have hres : parseNat (c :: cs ++ rest) = some (n.toNat, rest) := by
      rw [← hm]
      exact parseNat_dump _ _ hnd
    unfold parseIntTok
    split
    · next heq =>
        rw [List.cons_append] at heq
        injection heq with h1 _
        exact absurd h1 hcne
    · rw [hres]
      simp only [his, if_true]
      congr 2
      omega

theorem parseStrBody_plain (cs : List Char) (rest : List Char)
    (h : cs.all plainChar = true) :
    parseStrBody (cs ++ '"' :: rest) = some (cs, rest) := by
  induction cs with
  | nil =>
    rw [List.nil_append, parseStrBody.eq_def]
    simp
  | cons c cs ih =>
    simp only [List.all_cons, Bool.and_eq_true] at h
    obtain ⟨hc, hcs⟩ := h
    simp only [plainChar, Bool.and_eq_true, decide_eq_true_eq] at hc
    obtain ⟨⟨h1, h2⟩, h3⟩ := hc
    rw [List.cons_append, parseStrBody.eq_def]
    simp [h1, h2, show ¬ c.toNat < 32 by omega, ih hcs]

theorem skipWs_cons_false {c : Char} (h : jsonWs c = false) (cs : List Char) :
    skipWs (c :: cs) = c :: cs := by
  simp [skipWs, List.dropWhile_cons, h]

theorem startCh_facts {c : Char} (h : startCh c = true) :
    jsonWs c = false ∧ c ≠ ']' ∧ c ≠ '}' ∧ c ≠ ',' := by
  simp only [startCh, Bool.or_eq_true, decide_eq_true_eq] at h
  have hc : c = 'n' ∨ c = 't' ∨ c = 'f' ∨ c = '"' ∨ c = '[' ∨ c = '{' ∨
      c = '-' ∨ isDigitChar c = true := by tauto
  rcases hc with rfl|rfl|rfl|rfl|rfl|rfl|rfl|hd
  any_goals decide
  rcases isDigitChar_cases hd with rfl|rfl|rfl|rfl|rfl|rfl|rfl|rfl|rfl|rfl <;> decide

theorem dumpV_head (v : JVal) : ∃ c cs, dumpV v = c :: cs ∧ startCh c = true := by
  cases v with
  | null => exact ⟨'n', _, rfl, by decide⟩
  | bool b => cases b with
    | true => exact ⟨'t', _, rfl, by decide⟩
    | false => exact ⟨'f', _, rfl, by decide⟩
  | str s => exact ⟨'"', _, rfl, by decide⟩
  | arr xs => exact ⟨'[', _, rfl, by decide⟩
  | obj kvs => exact ⟨'{', _, rfl, by decide⟩
  | int n =>
    by_cases hneg : n < 0
    · exact ⟨'-', dumpNat (-n).toNat, by simp [dumpV, dumpInt, hneg], by decide⟩
    · obtain ⟨c, cs, hm⟩ : ∃ c cs, dumpNat n.toNat = c :: cs := by
        cases hmm : dumpNat n.toNat with
        | nil => exact absurd hmm (dumpNat_ne_nil _)
        | cons c cs => exact ⟨c, cs, rfl⟩
      refine ⟨c, cs, by simp [dumpV, dumpInt, hneg, hm], ?_⟩
      have := dumpNat_all_digits n.toNat
      rw [hm] at this
      simp only [List.all_cons, Bool.and_eq_true] at this
      simp [startCh, this.1]

theorem dumpA_head {vs : List JVal} (h : vs ≠ []) :
    ∃ c cs, dumpA vs = c :: cs ∧ startCh c = true := by
  cases vs with
  | nil => exact absurd rfl h
  | cons v ws =>
    obtain ⟨c, cs, hm, hs⟩ := dumpV_head v
    cases ws with
    | nil => exact ⟨c, cs, by simp [dumpA, hm], hs⟩
    | cons w ws =>
      exact ⟨c, cs ++ ',' :: ' ' :: dumpA (w :: ws), by simp [dumpA, hm], hs⟩

theorem dumpO_head (kvs : List (String × JVal)) (h : kvs ≠ []) :
    ∃ cs, dumpO kvs = '"' :: cs := by
  cases kvs with
  | nil => exact absurd rfl h
  | cons kv rest =>
    obtain ⟨k, v⟩ := kv
    cases rest with
    | nil => exact ⟨k.data ++ '"' :: ':' :: ' ' :: dumpV v, by simp [dumpO]⟩
    | cons kv2 rest =>
      exact ⟨k.data ++ '"' :: ':' :: ' ' :: (dumpV v ++ ',' :: ' ' :: dumpO (kv2 :: rest)),
        by simp [dumpO]⟩

theorem dumpA_two (v w : JVal) (ws : List JVal) :
    dumpA (v :: w :: ws) = dumpV v ++ ',' :: ' ' :: dumpA (w :: ws) := by
  rw [dumpA]
  simp

theorem dumpO_two (k : String) (v : JVal) (kv2 : String × JVal)
    (kvs : List (String × JVal)) :
    dumpO ((k, v) :: kv2 :: kvs) =
      '"' :: (k.data ++ '"' :: ':' :: ' ' :: dumpV v) ++ ',' :: ' ' :: dumpO (kv2 :: kvs) := by
  rw [dumpO]
  simp

theorem jsize_pos (v : JVal) : 1 ≤ jsize v := by
  cases v <;> simp [jsize]

theorem jsizeA_pos {vs : List JVal} (h : vs ≠ []) : 1 ≤ jsizeA vs := by
  cases vs with
  | nil => exact absurd rfl h
  | cons v vs => simp [jsizeA]

theorem jsizeO_pos {kvs : List (String × JVal)} (h : kvs ≠ []) : 1 ≤ jsizeO kvs := by
  cases kvs with
  | nil => exact absurd rfl h
  | cons kv kvs =>
    obtain ⟨k, v⟩ := kv
    simp [jsizeO]

theorem skipWs_cons_true {c : Char} (h : jsonWs c = true) (cs : List Char) :
    skipWs (c :: cs) = skipWs cs := by
  simp [skipWs, List.dropWhile_cons, h]

theorem skipWs_dumpV (v : JVal) (X : List Char) :
    skipWs (dumpV v ++ X) = dumpV v ++ X := by
  obtain ⟨c, cs, hm, hs⟩ := dumpV_head v
  rw [hm, List.cons_append, skipWs_cons_false (startCh_facts hs).1]

theorem skipWs_dumpA {vs : List JVal} (h : vs ≠ []) (X : List Char) :
    skipWs (dumpA vs ++ X) = dumpA vs ++ X := by
  obtain ⟨c, cs, hm, hs⟩ := dumpA_head h
  rw [hm, List.cons_append, skipWs_cons_false (startCh_facts hs).1]

theorem skipWs_dumpO {kvs : List (String × JVal)} (h : kvs ≠ []) (X : List Char) :
    skipWs (dumpO kvs ++ X) = dumpO kvs ++ X := by
  obtain ⟨cs, hm⟩ := dumpO_head kvs h
  rw [hm, List.cons_append, skipWs_cons_false (by decide : jsonWs '"' = false)]

theorem valStop_head (c : Char) (cs : List Char) :
    valStop (c :: cs) = !(isDigitChar c || c = '.' || c = 'e' || c = 'E') := rfl

theorem parse_dump (fuel : Nat) :
    (∀ v rest, wfJ v = true → jsize v < fuel → valStop rest = true →
      parseVal fuel (dumpV v ++ rest) = some (v, rest)) ∧
    (∀ vs rest, vs ≠ [] → wfA vs = true → jsizeA vs < fuel →
      parseItems fuel (dumpA vs ++ ']' :: rest) = some (vs, rest)) ∧
    (∀ kvs rest, kvs ≠ [] → wfO kvs = true → jsizeO kvs < fuel →
      parseMembers fuel (dumpO kvs ++ '}' :: rest) = some (kvs, rest)) := by
  induction fuel with
  | zero =>
    refine ⟨?_, ?_, ?_⟩
    · intro v rest _ hsz _
      exact absurd hsz (by have := jsize_pos v; omega)
    · intro vs rest hne _ hsz
      exact absurd hsz (by have := jsizeA_pos hne; omega)
    · intro kvs rest hne _ hsz
      exact absurd hsz (by have := jsizeO_pos hne; omega)
  | succ fuel ih =>
    obtain ⟨ihP, ihQ, ihR⟩ := ih
    refine ⟨?_, ?_, ?_⟩
    · intro v rest hwf hsz hstop
      cases v with
      | null =>
        show parseVal (fuel + 1) ('n' :: 'u' :: 'l' :: 'l' :: rest) = _
        rw [parseVal.eq_def]
        simp [expectLit]
      | bool b =>
        cases b with
        | true =>
          show parseVal (fuel + 1) ('t' :: 'r' :: 'u' :: 'e' :: rest) = _
          rw [parseVal.eq_def]
          simp [expectLit]
        | false =>
          show parseVal (fuel + 1) ('f' :: 'a' :: 'l' :: 's' :: 'e' :: rest) = _
          rw [parseVal.eq_def]
          simp [expectLit]
      | int n =>
        have hp : parseIntTok (dumpInt n ++ rest) = some (n, rest) :=
          parseIntTok_dump n rest hstop
        obtain ⟨c, cs, hm, hs⟩ := dumpV_head (.int n)
        have hd : isDigitChar c = true ∨ c = '-' := by
          by_cases hneg : n < 0
          · right
            have hdn : dumpV (.int n) = '-' :: dumpNat (-n).toNat := by
              simp [dumpV, dumpInt, hneg]
            rw [hdn] at hm
            injection hm with h1 _
            exact h1.symm
          · left
            have hdn : dumpV (.int n) = dumpNat n.toNat := by
              simp [dumpV, dumpInt, hneg]
            rw [hdn] at hm
            have hall := dumpNat_all_digits n.toNat
            rw [hm] at hall
            simp only [List.all_cons, Bool.and_eq_true] at hall
            exact hall.1
        have hdisp : c ≠ 'n' ∧ c ≠ 't' ∧ c ≠ 'f' ∧ c ≠ '"' ∧ c ≠ '[' ∧ c ≠ '{' := by
          rcases hd with hd | rfl
          · rcases isDigitChar_cases hd with rfl|rfl|rfl|rfl|rfl|rfl|rfl|rfl|rfl|rfl <;> decide
          · decide
        have hp2 : parseIntTok (c :: (cs ++ rest)) = some (n, rest) := by
          rw [← List.cons_append]
          rw [show dumpV (.int n) = dumpInt n from rfl] at hm
          rw [← hm]
          exact hp
        rw [show dumpV (.int n) ++ rest = c :: (cs ++ rest) by
          rw [hm, List.cons_append]]
        rw [parseVal.eq_def]
        simp [hdisp.1, hdisp.2.1, hdisp.2.2.1, hdisp.2.2.2.1,
          hdisp.2.2.2.2.1, hdisp.2.2.2.2.2, hp2]
      | str s =>
        have hplain : plainStr s = true := by simpa [wfJ] using hwf
        rw [show dumpV (.str s) ++ rest = '"' :: (s.data ++ '"' :: rest) by
          simp [dumpV]]
        rw [parseVal.eq_def]
        simp [parseStrBody_plain s.data rest hplain]
      | arr xs =>
        cases xs with
        | nil =>
          show parseVal (fuel + 1) ('[' :: ']' :: rest) = _
          rw [parseVal.eq_def]
          simp [skipWs_cons_false (by decide : jsonWs ']' = false)]
        | cons v vs =>
          have hwfA : wfA (v :: vs) = true := by simpa [wfJ] using hwf
          have hszA : jsizeA (v :: vs) < fuel := by
            simp only [jsize] at hsz
            omega
          have hq := ihQ (v :: vs) rest (by simp) hwfA hszA
          obtain ⟨c, cs, hm, hs⟩ := @dumpA_head (v :: vs) (by simp)
          obtain ⟨hws, hrb, hcb, hcm⟩ := startCh_facts hs
          have hsw : skipWs (dumpA (v :: vs) ++ ']' :: rest) =
              c :: (cs ++ ']' :: rest) := by
            rw [skipWs_dumpA (by simp) _, hm, List.cons_append]
          have hq2 : parseItems fuel (c :: (cs ++ ']' :: rest)) =
              some (v :: vs, rest) := by
            rw [← List.cons_append, ← hm]
            exact hq
          rw [show dumpV (.arr (v :: vs)) ++ rest =
            '[' :: (dumpA (v :: vs) ++ ']' :: rest) by simp [dumpV]]
          rw [parseVal.eq_def]
          simp [hsw, hrb, hq2]
      | obj kvs =>
        cases kvs with
        | nil =>
          show parseVal (fuel + 1) ('{' :: '}' :: rest) = _
          rw [parseVal.eq_def]
          simp [skipWs_cons_false (by decide : jsonWs '}' = false)]
        | cons kv kvs =>
          have hwfO : wfO (kv :: kvs) = true := by simpa [wfJ] using hwf
          have hszO : jsizeO (kv :: kvs) < fuel := by
            simp only [jsize] at hsz
            omega
          have hr := ihR (kv :: kvs) rest (by simp) hwfO hszO
          obtain ⟨cs, hm⟩ := dumpO_head (kv :: kvs) (by simp)
          have hsw : skipWs (dumpO (kv :: kvs) ++ '}' :: rest) =
              '"' :: (cs ++ '}' :: rest) := by
            rw [skipWs_dumpO (by simp) _, hm, List.cons_append]
          have hr2 : parseMembers fuel ('"' :: (cs ++ '}' :: rest)) =
              some (kv :: kvs, rest) := by
            rw [← List.cons_append, ← hm]
            exact hr
          rw [show dumpV (.obj (kv :: kvs)) ++ rest =
            '{' :: (dumpO (kv :: kvs) ++ '}' :: rest) by simp [dumpV]]
          rw [parseVal.eq_def]
          simp [hsw, hr2]
    · intro vs rest hne hwf hsz
      cases vs with
      | nil => exact absurd rfl hne
      | cons v ws =>
        simp only [wfA, Bool.and_eq_true] at hwf
        cases ws with
        | nil =>
          have hp := ihP v (']' :: rest) hwf.1
            (by simp only [jsizeA] at hsz; omega)
            (by rw [valStop_head]; decide)
          rw [show dumpA [v] ++ ']' :: rest = dumpV v ++ ']' :: rest by rw [dumpA]]
          rw [parseItems.eq_def]
          simp [hp, skipWs_cons_false (by decide : jsonWs ']' = false)]
        | cons w ws =>
          have hp := ihP v (',' :: ' ' :: (dumpA (w :: ws) ++ ']' :: rest)) hwf.1
            (by simp only [jsizeA] at hsz; omega)
            (by rw [valStop_head]; decide)
          have hq := ihQ (w :: ws) rest (by simp) hwf.2
            (by simp only [jsizeA] at hsz ⊢; omega)
          have hsw : skipWs (' ' :: (dumpA (w :: ws) ++ ']' :: rest)) =
              dumpA (w :: ws) ++ ']' :: rest := by
            rw [skipWs_cons_true (by decide : jsonWs ' ' = true),
              skipWs_dumpA (by simp)]
          rw [show dumpA (v :: w :: ws) ++ ']' :: rest =
            dumpV v ++ ',' :: ' ' :: (dumpA (w :: ws) ++ ']' :: rest) by
              rw [dumpA_two]; simp]
          rw [parseItems.eq_def]
          simp [hp, skipWs_cons_false (by decide : jsonWs ',' = false), hsw, hq]
    · intro kvs rest hne hwf hsz
      cases kvs with
      | nil => exact absurd rfl hne
      | cons kv kvs =>
        obtain ⟨k, v⟩ := kv
        simp only [wfO, Bool.and_eq_true] at hwf
        obtain ⟨⟨hk, hv⟩, hkvs⟩ := hwf
        cases kvs with
        | nil =>
          have hp := ihP v ('}' :: rest) hv
            (by simp only [jsizeO] at hsz; omega)
            (by rw [valStop_head]; decide)
          have hsw : skipWs (' ' :: (dumpV v ++ '}' :: rest)) =
              dumpV v ++ '}' :: rest := by
            rw [skipWs_cons_true (by decide : jsonWs ' ' = true), skipWs_dumpV]
          rw [show dumpO [(k, v)] ++ '}' :: rest =
            '"' :: (k.data ++ '"' :: (':' :: ' ' :: (dumpV v ++ '}' :: rest))) by
              rw [dumpO]; simp]
          rw [parseMembers.eq_def]
          simp [parseStrBody_plain k.data _ hk,
            skipWs_cons_false (by decide : jsonWs ':' = false), hsw, hp,
            skipWs_cons_false (by decide : jsonWs '}' = false)]
        | cons kv2 kvs =>
          have hp := ihP v (',' :: ' ' :: (dumpO (kv2 :: kvs) ++ '}' :: rest)) hv
            (by simp only [jsizeO] at hsz; omega)
            (by rw [valStop_head]; decide)
          have hr := ihR (kv2 :: kvs) rest (by simp) hkvs
            (by simp only [jsizeO] at hsz ⊢; omega)
          have hsw : skipWs (' ' :: (dumpV v ++
              ',' :: ' ' :: (dumpO (kv2 :: kvs) ++ '}' :: rest))) =
              dumpV v ++ ',' :: ' ' :: (dumpO (kv2 :: kvs) ++ '}' :: rest) := by
            rw [skipWs_cons_true (by decide : jsonWs ' ' = true), skipWs_dumpV]
          have hsw2 : skipWs (' ' :: (dumpO (kv2 :: kvs) ++ '}' :: rest)) =
              dumpO (kv2 :: kvs) ++ '}' :: rest := by
            rw [skipWs_cons_true (by decide : jsonWs ' ' = true),
              skipWs_dumpO (by simp)]
          rw [show dumpO ((k, v) :: kv2 :: kvs) ++ '}' :: rest =
            '"' :: (k.data ++ '"' :: (':' :: ' ' ::
              (dumpV v ++ ',' :: ' ' :: (dumpO (kv2 :: kvs) ++ '}' :: rest)))) by
              rw [dumpO_two]; simp]
          rw [parseMembers.eq_def]
          simp [parseStrBody_plain k.data _ hk,
            skipWs_cons_false (by decide : jsonWs ':' = false), hsw, hp,
            skipWs_cons_false (by decide : jsonWs ',' = false), hsw2, hr]

theorem dumpInt_ne_nil (n : Int) : dumpInt n ≠ [] := by
  unfold dumpInt
  by_cases h : n < 0
  · simp [h]
  · simp [h, dumpNat_ne_nil]

mutual

theorem jsize_le_dumpV : ∀ v : JVal, jsize v ≤ 2 * (dumpV v).length
  | .null => by simp [jsize, dumpV]
  | .bool b => by cases b <;> simp [jsize, dumpV]
  | .int n => by
    have h1 : 1 ≤ (dumpInt n).length :=
      List.length_pos.mpr (dumpInt_ne_nil n)
    simp only [jsize, dumpV]
    omega
  | .str s => by
    simp [jsize, dumpV]
    omega
  | .arr xs => by
    have h1 := jsizeA_le_dumpA xs
    simp only [jsize, dumpV, List.length_cons, List.length_append,
      List.length_singleton]
    omega
  | .obj kvs => by
    have h1 := jsizeO_le_dumpO kvs
    simp only [jsize, dumpV, List.length_cons, List.length_append,
      List.length_singleton]
    omega

theorem jsizeA_le_dumpA : ∀ vs : List JVal, jsizeA vs ≤ 2 * (dumpA vs).length + 1
  | [] => by simp [jsizeA, dumpA]
  | [v] => by
    have h1 := jsize_le_dumpV v
    simp only [jsizeA, dumpA]
    omega
  | v :: w :: ws => by
    have h1 := jsize_le_dumpV v
    have h2 := jsizeA_le_dumpA (w :: ws)
    simp only [jsizeA] at h2
    simp only [jsizeA, dumpA_two, List.length_append, List.length_cons]
    omega

theorem jsizeO_le_dumpO : ∀ kvs : List (String × JVal),
    jsizeO kvs ≤ 2 * (dumpO kvs).length + 1
  | [] => by simp [jsizeO, dumpO]
  | [(k, v)] => by
    have h1 := jsize_le_dumpV v
    simp only [jsizeO, dumpO, List.length_cons, List.length_append]
    omega
  | (k, v) :: kv2 :: kvs => by
    have h1 := jsize_le_dumpV v
    have h2 := jsizeO_le_dumpO (kv2 :: kvs)
    simp only [jsizeO] at h2
    simp only [jsizeO, dumpO_two, List.length_append, List.length_cons]
    omega

end

/-- Serialize/parse round trip: `json.loads(json.dumps(v)) == v` for every
well-formed payload. -/
theorem loads_dumps (v : JVal) (h : wfJ v = true) : loads (dumps v) = some v := by
  have hsw : skipWs (dumpV v) = dumpV v := by
    have h2 := skipWs_dumpV v []
    rwa [List.append_nil] at h2
  have hfuel : jsize v < 2 * (dumpV v).length + 4 := by
    have := jsize_le_dumpV v
    omega
  have hp := (parse_dump (2 * (dumpV v).length + 4)).1 v [] h hfuel (by decide)
  rw [List.append_nil] at hp
  show (match parseVal (2 * (skipWs (dumpV v)).length + 4) (skipWs (dumpV v)) with
        | some (v, rest) => if skipWs rest = [] then some v else none
        | none => none) = some v
  rw [hsw, hp]
  rfl

/-! ## Claim theorems -/

/-- C1: the claim says the normalizer parses a timestamp string with no UTC
offset as UTC+9 civil time.  The feed normalizer's parser
(tdnet.py `_parse_dt_maybe`) instead attaches `timezone.utc` to naive
timestamps: `"2026-02-06 09:00:00"` parses to 09:00 UTC, not the claimed
00:00 UTC.  The app-level re-parser (app.py `_parse_dt_any`) does implement
the claimed UTC+9 reading — the two duplicated parsers disagree — and both
agree with the claim's other points: explicit `Z`/offset suffixes are
honoured and empty or unparseable input yields absent, not an error. -/
theorem C1_naive_timestamp_divergence :
    Tdnet._parse_dt_maybe "2026-02-06 09:00:00" = some (civilSecs 2026 2 6 9 0 0) ∧
    App._parse_dt_any (.str "2026-02-06 09:00:00") = some (civilSecs 2026 2 6 0 0 0) ∧
    civilSecs 2026 2 6 9 0 0 ≠ civilSecs 2026 2 6 0 0 0 ∧
    Tdnet._parse_dt_maybe "2026-02-06T09:00:00Z" = some (civilSecs 2026 2 6 9 0 0) ∧
    Tdnet._parse_dt_maybe "2026-02-06T09:00:00+09:00" = some (civilSecs 2026 2 6 0 0 0) ∧
    Tdnet._parse_dt_maybe "" = none ∧
    Tdnet._parse_dt_maybe "garbage" = none ∧
    App._parse_dt_any .null = none := by
  exact ⟨by decide, by decide, by decide, by decide, by decide, by decide,
    by decide, by decide⟩

/-- C10: a `put` (`save_analysis`) with an empty identity leaves the store
unchanged and creates no row, and a `get` (`get_cached_analysis`) with an
empty identity returns None before any DB connection is opened (the Bool
component of the model reports whether the store was touched). -/
theorem C10_empty_identity_noop :
    ∀ (db : Storage.Store) (code title now : String) (pub : Option Int) (payload : JVal),
      Storage.save_analysis db "" code title pub payload now = db ∧
      Storage.get_cached_analysis db "" = (none, false) := by
  intro db code title now pub payload
  exact ⟨by simp [Storage.save_analysis], by simp [Storage.get_cached_analysis]⟩

theorem dlLoop_abort (maxB : Nat) :
    ∀ (pre : List (List Nat)) (c : List Nat) (rest : List (List Nat))
      (size : Nat) (file : List Nat),
      (∀ ch ∈ pre, ch ≠ []) → c ≠ [] →
      size + sumLen pre ≤ maxB → maxB < size + sumLen pre + c.length →
      Analyzer.dlLoop maxB (pre ++ c :: rest) size file =
        (.error .tooLarge, pre.length + 1) := by
  intro pre
  induction pre with
  | nil =>
    intro c rest size file _ hc hle hgt
    simp only [sumLen, List.map_nil, List.sum_nil, Nat.add_zero] at hle hgt
    have hcne : c.isEmpty = false := by
      cases c with
      | nil => exact absurd rfl hc
      | cons x xs => rfl
    rw [List.nil_append, Analyzer.dlLoop.eq_def]
    simp [hcne, hgt]
  | cons ch pre ih =>
    intro c rest size file hpre hc hle hgt
    have hch : ch ≠ [] := hpre ch (by simp)
    have hchne : ch.isEmpty = false := by
      cases ch with
      | nil => exact absurd rfl hch
      | cons x xs => rfl
    simp only [sumLen, List.map_cons, List.sum_cons] at hle hgt
    have h2 : ¬ (maxB < size + ch.length) := by omega
    have hr := ih c rest (size + ch.length) (file ++ ch)
      (fun x hx => hpre x (by simp [hx])) hc
      (by simp only [sumLen]; omega) (by simp only [sumLen]; omega)
    rw [List.cons_append, Analyzer.dlLoop.eq_def]
    simp [hchne, h2, hr]

theorem headBadFalse (maxB : Nat) (hcl : Option Nat)
    (h : ∀ cl, hcl = some cl → cl ≤ maxB) :
    Analyzer.headCLBad maxB hcl = false := by
  cases hcl with
  | none => rfl
  | some cl =>
    have := h cl rfl
    simp [Analyzer.headCLBad]
    omega

/-- C9: when the cumulative byte count first exceeds the configured maximum
at chunk N, the streaming loop of `_download_to_temp` stops having consumed
exactly N chunks (no further chunk is requested or buffered), deletes the
partial temp file and raises; and the composed analyze action leaves the
cache store unchanged, so the partial data is never written to the cache
nor handed to the LLM call. -/
theorem C9_size_limit_abort :
    ∀ (maxB : Nat) (pre : List (List Nat)) (c : List Nat) (rest : List (List Nat))
      (url code title ctype llm now : String) (pub : Option Int)
      (hcl : Option Nat) (db : Storage.Store),
      (∀ ch ∈ pre, ch ≠ []) → c ≠ [] →
      sumLen pre ≤ maxB → maxB < sumLen pre + c.length →
      Analyzer._is_allowed_pdf_url url = true →
      (match hcl with | some cl => cl ≤ maxB | none => True) →
      containsSub (pyLower ctype) "text/html" = false →
      Analyzer._download_to_temp url maxB hcl ctype (pre ++ c :: rest) =
        (.error .tooLarge, pre.length + 1) ∧
      analyze_and_save db url code title pub maxB hcl ctype (pre ++ c :: rest) llm now =
        (db, .error .tooLarge) := by
  intro maxB pre c rest url code title ctype llm now pub hcl db
  intro hpre hc hle hgt hurl hhcl hct
  have hdl : Analyzer._download_to_temp url maxB hcl ctype (pre ++ c :: rest) =
      (.error .tooLarge, pre.length + 1) := by
    have hloop := dlLoop_abort maxB pre c rest 0 [] hpre hc (by omega) (by omega)
    have hhcl2 : ∀ cl, hcl = some cl → cl ≤ maxB := by
      intro cl heq
      rw [heq] at hhcl
      exact hhcl
    have hbad := headBadFalse maxB hcl hhcl2
    simp [Analyzer._download_to_temp, hurl, hbad, hct, hloop]
  refine ⟨hdl, ?_⟩
  simp [analyze_and_save, hdl]

/-- Witness for C9 at a concrete stream: limit 5 bytes, chunks of 3 and 3
bytes; the transfer aborts after the second chunk and nothing is cached. -/
theorem C9_size_limit_abort_witness :
    Analyzer._download_to_temp "https://release.tdnet.info/x/foo.pdf" 5 none
        "application/pdf" [[1, 2, 3], [4, 5, 6]] = (.error .tooLarge, 2) ∧
    analyze_and_save [] "https://release.tdnet.info/x/foo.pdf" "" "" none 5 none
        "application/pdf" [[1, 2, 3], [4, 5, 6]] "x" "now" = ([], .error .tooLarge) := by
  have h := C9_size_limit_abort 5 [[1, 2, 3]] [4, 5, 6] []
    "https://release.tdnet.info/x/foo.pdf" "" "" "application/pdf" "x" "now" none none []
    (by decide) (by decide) (by decide) (by decide) (by decide) trivial (by decide)
  exact h

theorem apply_filters_cons (it : App.NItem) (rest : List App.NItem)
    (k docu : Bool) (cutoff : Int) :
    App.apply_filters (it :: rest) k docu cutoff =
      (if App.passes k docu cutoff it = true then
        it :: App.apply_filters rest k docu cutoff
      else App.apply_filters rest k docu cutoff) := by
  rcases it with ⟨title, code, code_raw, doc_url, pub⟩
  rw [App.apply_filters.eq_def]
  rcases pub with _ | t
  · cases k <;> cases docu <;> cases hk : App.is_kessan title <;>
      by_cases hd : pyStrip doc_url = "" <;> simp [App.passes, hk, hd]
  · by_cases hlt : t < cutoff <;>
      cases k <;> cases docu <;> cases hk : App.is_kessan title <;>
      by_cases hd : pyStrip doc_url = "" <;> simp [App.passes, hk, hd, hlt]

theorem apply_filters_eq_filter (items : List App.NItem) (k docu : Bool)
    (cutoff : Int) :
    App.apply_filters items k docu cutoff = items.filter (App.passes k docu cutoff) := by
  induction items with
  | nil => rfl
  | cons it rest ih =>
    rw [apply_filters_cons, ih, List.filter_cons]

/-- C6: the date-cutoff predicate of the screening filter never excludes an
item whose `published_at` is absent: such an item's fate does not depend on
the cutoff at all, and it is kept if and only if it is in the input and
passes the (optional) earnings-title and document-URL predicates. -/
theorem C6_absent_timestamp_passes_cutoff :
    ∀ (items : List App.NItem) (k docu : Bool) (cutoff : Int) (it : App.NItem),
      it.published_at = none →
      (∀ cutoff2 : Int, App.passes k docu cutoff it = App.passes k docu cutoff2 it) ∧
      (it ∈ App.apply_filters items k docu cutoff ↔
        it ∈ items ∧ (k = true → App.is_kessan it.title = true) ∧
          (docu = true → pyStrip it.doc_url ≠ "")) := by
  intro items k docu cutoff it hnone
  constructor
  · intro cutoff2
    simp [App.passes, hnone]
  · rw [apply_filters_eq_filter, List.mem_filter]
    constructor
    · rintro ⟨hmem, hp⟩
      simp only [App.passes, hnone, Bool.and_eq_true, Bool.or_eq_true,
        Bool.not_eq_true', decide_eq_false_iff_not] at hp
      refine ⟨hmem, ?_, ?_⟩
      · intro hk
        rcases hp.1.1 with h | h
        · rw [hk] at h; exact absurd h (by decide)
        · exact h
      · intro hdocu
        rcases hp.1.2 with h | h
        · rw [hdocu] at h; exact absurd h (by decide)
        · exact h
    · rintro ⟨hmem, h1, h2⟩
      refine ⟨hmem, ?_⟩
      simp only [App.passes, hnone, Bool.and_eq_true, Bool.or_eq_true,
        Bool.not_eq_true', decide_eq_false_iff_not]
      refine ⟨⟨?_, ?_⟩, by simp⟩
      · cases k with
        | false => exact Or.inl rfl
        | true => exact Or.inr (h1 rfl)
      · cases docu with
        | false => exact Or.inl rfl
        | true => exact Or.inr (h2 rfl)

/-- Witness for C6: an earnings-titled item with no timestamp is kept by the
strict filter for an arbitrary cutoff. -/
theorem C6_absent_timestamp_passes_cutoff_witness :
    (⟨"決算短信", "", "", "", none⟩ : App.NItem) ∈
      App.apply_filters [⟨"決算短信", "", "", "", none⟩] true false 12345 :=
  (C6_absent_timestamp_passes_cutoff [⟨"決算短信", "", "", "", none⟩] true false
      12345 ⟨"決算短信", "", "", "", none⟩ rfl).2.mpr
    ⟨by simp, fun _ => by decide, fun h => absurd h (by decide)⟩

theorem screen_eq_strict (items : List App.NItem) (docu : Bool) (cutoff : Int)
    (h : (App.apply_filters items true docu cutoff).isEmpty = false) :
    App.screen items true docu cutoff =
      (App.apply_filters items true docu cutoff, false) := by
  show (if true && (App.apply_filters items true docu cutoff).isEmpty then
      (App.apply_filters items false docu cutoff, true)
    else (App.apply_filters items true docu cutoff, false)) = _
  rw [h]
  rfl

theorem screen_eq_relaxed (items : List App.NItem) (docu : Bool) (cutoff : Int)
    (h : (App.apply_filters items true docu cutoff).isEmpty = true) :
    App.screen items true docu cutoff =
      (App.apply_filters items false docu cutoff, true) := by
  show (if true && (App.apply_filters items true docu cutoff).isEmpty then
      (App.apply_filters items false docu cutoff, true)
    else (App.apply_filters items true docu cutoff, false)) = _
  rw [h]
  rfl

/-- C5: with the earnings-only option set, `screen` returns exactly the
items passing all predicates when that set is non-empty; when it is empty,
it recomputes with only the earnings predicate disabled — the document-URL
and date-cutoff predicates stay in force — returns that, and signals the
relaxation through its flag. -/
theorem C5_screen_relaxation :
    ∀ (items : List App.NItem) (docu : Bool) (cutoff : Int),
      (App.apply_filters items true docu cutoff ≠ [] →
        App.screen items true docu cutoff =
          (items.filter (App.passes true docu cutoff), false)) ∧
      (App.apply_filters items true docu cutoff = [] →
        App.screen items true docu cutoff =
          (items.filter (App.passes false docu cutoff), true)) ∧
      (∀ it, it ∈ (App.screen items true docu cutoff).1 →
        (docu = true → pyStrip it.doc_url ≠ "") ∧
        (∀ t, it.published_at = some t → ¬ t < cutoff)) := by
  intro items docu cutoff
  refine ⟨?_, ?_, ?_⟩
  · intro hne
    have hemp : (App.apply_filters items true docu cutoff).isEmpty = false := by
      cases h : App.apply_filters items true docu cutoff with
      | nil => exact absurd h hne
      | cons a l => rfl
    rw [screen_eq_strict items docu cutoff hemp, apply_filters_eq_filter]
  · intro hemp0
    have hemp : (App.apply_filters items true docu cutoff).isEmpty = true := by
      rw [hemp0]; rfl
    rw [screen_eq_relaxed items docu cutoff hemp, apply_filters_eq_filter]
  · intro it hmem
    have hp : App.passes true docu cutoff it = true ∨
        App.passes false docu cutoff it = true := by
      by_cases hemp : (App.apply_filters items true docu cutoff).isEmpty = true
      · right
        rw [screen_eq_relaxed items docu cutoff hemp] at hmem
        rw [apply_filters_eq_filter, List.mem_filter] at hmem
        exact hmem.2
      · left
        rw [screen_eq_strict items docu cutoff
          (Bool.eq_false_iff.mpr hemp)] at hmem
        rw [apply_filters_eq_filter, List.mem_filter] at hmem
        exact hmem.2
    have hex : ((!docu || !(decide (pyStrip it.doc_url = ""))) = true) ∧
        ((match it.published_at with
          | some t => !(decide (t < cutoff))
          | none => true) = true) := by
      rcases hp with hp | hp <;>
        (simp only [App.passes, Bool.and_eq_true] at hp; exact ⟨hp.1.2, hp.2⟩)
    constructor
    · intro hdocu
      have h2 := hex.1
      rw [hdocu] at h2
      simpa using h2
    · intro t ht
      have h2 := hex.2
      rw [ht] at h2
      simpa using h2

/-- Witness for C5: one non-earnings item with a document URL; the strict
pass selects nothing, so screen relaxes, returns the item, and reports it. -/
theorem C5_screen_relaxation_witness :
    App.screen [⟨"お知らせ", "", "", "u", none⟩] true false 0 =
      ([⟨"お知らせ", "", "", "u", none⟩], true) := by
  have h := (C5_screen_relaxation [⟨"お知らせ", "", "", "u", none⟩] false 0).2.1
    (by decide)
  rw [h]
  rfl

/-- C8: `get_cached_analysis` degrades every failure to a cache miss: None
when the row is absent, None when the stored payload does not parse as
JSON, and None when it parses to a non-object.  The `try/except` around
`json.loads` is modelled by the `Option`-valued `loads`, so no parse
failure can propagate to the caller. -/
theorem C8_get_parse_failure_is_miss :
    ∀ (db : Storage.Store) (u : String) (row : Storage.Row), u ≠ "" →
      (Storage.lookupRow db u = none →
        Storage.get_cached_analysis db u = (none, true)) ∧
      (Storage.lookupRow db u = some row → loads row.payload_json = none →
        Storage.get_cached_analysis db u = (none, true)) ∧
      (∀ v, Storage.lookupRow db u = some row → loads row.payload_json = some v →
        Analyzer.isObj v = false →
        Storage.get_cached_analysis db u = (none, true)) := by
  intro db u row hu
  refine ⟨?_, ?_, ?_⟩
  · intro habs
    simp [Storage.get_cached_analysis, hu, habs]
  · intro hrow hparse
    simp [Storage.get_cached_analysis, hu, hrow, hparse]
  · intro v hrow hparse hobj
    cases v with
    | obj kvs => simp [Analyzer.isObj] at hobj
    | null => simp [Storage.get_cached_analysis, hu, hrow, hparse]
    | bool b => simp [Storage.get_cached_analysis, hu, hrow, hparse]
    | int n => simp [Storage.get_cached_analysis, hu, hrow, hparse]
    | str s2 => simp [Storage.get_cached_analysis, hu, hrow, hparse]
    | arr xs => simp [Storage.get_cached_analysis, hu, hrow, hparse]

/-- Witness for C8: a stored row whose payload column is not JSON, and one
whose payload is a JSON array, both read back as a miss. -/
theorem C8_get_parse_failure_is_miss_witness :
    Storage.get_cached_analysis
      [("u", ⟨"", "", "", "not json", "", none, none, none, "", "", ""⟩)] "u" =
      (none, true) ∧
    Storage.get_cached_analysis
      [("u", ⟨"", "", "", "[1]", "", none, none, none, "", "", ""⟩)] "u" =
      (none, true) := by
  constructor
  · exact (C8_get_parse_failure_is_miss
      [("u", ⟨"", "", "", "not json", "", none, none, none, "", "", ""⟩)] "u"
      ⟨"", "", "", "not json", "", none, none, none, "", "", ""⟩
      (by decide)).2.1 rfl rfl
  · exact (C8_get_parse_failure_is_miss
      [("u", ⟨"", "", "", "[1]", "", none, none, none, "", "", ""⟩)] "u"
      ⟨"", "", "", "[1]", "", none, none, none, "", "", ""⟩
      (by decide)).2.2 (.arr [.int 1]) rfl rfl rfl

/-- C2: the allowlist check gating the automated download (analyzer.py
`_is_allowed_pdf_url`, enforced inside `_download_to_temp` before any bytes
are fetched) returns true only if the URL's host exactly equals, or is a
subdomain of, release.tdnet.info and the path ends in `.pdf`; the claim's
three examples evaluate as stated; and a URL failing the check makes the
download abort with no chunk consumed.  (app.py carries a looser
substring-based UI pre-check of the same name, but every automated download
passes through this check.) -/
theorem C2_is_eligible_for_fetch_allowlist :
    (∀ url : String, Analyzer._is_allowed_pdf_url url = true →
      (Analyzer.urlHost url = "release.tdnet.info" ∨
        endsWithSub (Analyzer.urlHost url) ".release.tdnet.info" = true) ∧
      endsWithSub (pyLower (Analyzer.urlPath url)) ".pdf" = true) ∧
    Analyzer._is_allowed_pdf_url "https://release.tdnet.info/x/foo.pdf" = true ∧
    Analyzer._is_allowed_pdf_url "https://evil.example.com/foo.pdf" = false ∧
    Analyzer._is_allowed_pdf_url "https://release.tdnet.info/x/foo.html" = false ∧
    (∀ (url : String) (maxB : Nat) (hcl : Option Nat) (ctype : String)
        (chunks : List (List Nat)),
      Analyzer._is_allowed_pdf_url url = false →
      Analyzer._download_to_temp url maxB hcl ctype chunks =
        (.error .notAllowedUrl, 0)) := by
  refine ⟨?_, by decide, by decide, by decide, ?_⟩
  · intro url h
    simp only [Analyzer._is_allowed_pdf_url] at h
    split_ifs at h with h1 h2 h3 h4
    simp only [Analyzer.urlHost, Analyzer.urlPath]
    simp at h3 h4
    exact ⟨or_iff_not_imp_left.mpr (by simpa [Analyzer.ALLOWED_HOST_SUFFIXES] using h3), h4⟩
  · intro url maxB hcl ctype chunks hfalse
    simp [Analyzer._download_to_temp, hfalse]

/-- Witness for C2: the allowed example URL indeed has an allowed host and
a PDF path, and a disallowed URL is refused by the download with zero
chunks consumed. -/
theorem C2_is_eligible_for_fetch_allowlist_witness :
    ((Analyzer.urlHost "https://release.tdnet.info/x/foo.pdf" = "release.tdnet.info" ∨
      endsWithSub (Analyzer.urlHost "https://release.tdnet.info/x/foo.pdf")
        ".release.tdnet.info" = true) ∧
     endsWithSub (pyLower (Analyzer.urlPath "https://release.tdnet.info/x/foo.pdf"))
       ".pdf" = true) ∧
    Analyzer._download_to_temp "https://evil.example.com/foo.pdf" 5 none "c" [[1]] =
      (.error .notAllowedUrl, 0) :=
  ⟨C2_is_eligible_for_fetch_allowlist.1 "https://release.tdnet.info/x/foo.pdf"
      (by decide),
   C2_is_eligible_for_fetch_allowlist.2.2.2.2 "https://evil.example.com/foo.pdf"
      5 none "c" [[1]] (by decide)⟩

theorem unwrap_obj (raw : List (String × JVal)) :
    ∃ kvs, Tdnet._unwrap_tdnet raw = .obj kvs := by
  unfold Tdnet._unwrap_tdnet
  split
  · exact ⟨_, rfl⟩
  · split
    · exact ⟨_, rfl⟩
    · split
      · exact ⟨_, rfl⟩
      · exact ⟨raw, rfl⟩

/-- C4: normalization is total — for every mapping input it returns a
`DisclosureItem` with no exception escaping (the dictionary accesses are
modelled as the fallible Python operations, and the `isinstance` guard in
the unwrap is what makes them safe) — the extracted title/code/URL fields
are strings by construction, and numeric field values are coerced to
strings (`Code: 1234` yields `"1234"`), including on an empty mapping, a
wrapped variant, and an unexpected value type. -/
theorem C4_normalize_total :
    (∀ raw : List (String × JVal), ∃ it : Tdnet.DisclosureItem,
      Tdnet._normalize_item raw = .ok it) ∧
    Tdnet._normalize_item [] = .ok ⟨"", "", "", "", none, .obj []⟩ ∧
    Tdnet._normalize_item [("Code", .int 1234)] =
      .ok ⟨"", "1234", "", "", none, .obj [("Code", .int 1234)]⟩ ∧
    Tdnet._normalize_item
      [("Tdnet", .obj [("Title", .str " X "),
        ("pubdate", .str "2026-02-06T09:00:00+09:00")])] =
      .ok ⟨"X", "", "", "", some (civilSecs 2026 2 6 0 0 0),
        .obj [("Title", .str " X "), ("pubdate", .str "2026-02-06T09:00:00+09:00")]⟩ ∧
    Tdnet._normalize_item [("title", .arr [])] =
      .ok ⟨"[]", "", "", "", none, .obj [("title", .arr [])]⟩ := by
  refine ⟨?_, rfl, rfl, rfl, rfl⟩
  intro raw
  obtain ⟨kvs, hk⟩ := unwrap_obj raw
  exact ⟨⟨Tdnet._pick_first [dGetD kvs "title", dGetD kvs "Title",
      dGetD kvs "subject", dGetD kvs "Subject"],
    Tdnet._pick_first [dGetD kvs "code", dGetD kvs "Code",
      dGetD kvs "company_code", dGetD kvs "ticker"],
    Tdnet._pick_first [dGetD kvs "document_url", dGetD kvs "documentUrl",
      dGetD kvs "doc_url", dGetD kvs "pdf_url", dGetD kvs "pdfUrl",
      dGetD kvs "pdf", dGetD kvs "attachment_url", dGetD kvs "attachmentUrl"],
    Tdnet._pick_first [dGetD kvs "url", dGetD kvs "link",
      dGetD kvs "detail_url", dGetD kvs "detailUrl"],
    Tdnet._parse_dt_maybe (Tdnet._pick_first [dGetD kvs "published_at",
      dGetD kvs "publishedAt", dGetD kvs "pubdate", dGetD kvs "date",
      dGetD kvs "datetime"]),
    .obj kvs⟩, by unfold Tdnet._normalize_item; rw [hk]; rfl⟩

theorem lookupRow_append_right (xs : Storage.Store) (u : String) (r : Storage.Row)
    (h : ∀ kv ∈ xs, kv.1 ≠ u) :
    Storage.lookupRow (xs ++ [(u, r)]) u = some r := by
  induction xs with
  | nil => simp [Storage.lookupRow]
  | cons kv rest ih =>
    obtain ⟨u2, r2⟩ := kv
    have hne : u2 ≠ u := h (u2, r2) (by simp)
    rw [List.cons_append, Storage.lookupRow]
    simp only [hne, if_false]
    exact ih (fun kv hm => h kv (by simp [hm]))

theorem lookupRow_upsert (db : Storage.Store) (u : String) (r : Storage.Row) :
    Storage.lookupRow (Storage.upsert db u r) u = some r := by
  unfold Storage.upsert Storage.deleteRow
  apply lookupRow_append_right
  intro kv hm
  have h2 := List.of_mem_filter hm
  simpa using h2

theorem rowCount_upsert (db : Storage.Store) (u : String) (r : Storage.Row) :
    Storage.rowCount (Storage.upsert db u r) u = 1 := by
  unfold Storage.rowCount Storage.upsert Storage.deleteRow
  rw [List.filter_append]
  have h1 : (db.filter (fun kv => kv.1 != u)).filter (fun kv => decide (kv.1 = u)) = [] := by
    rw [List.filter_filter]
    apply List.filter_eq_nil_iff.mpr
    intro kv _
    by_cases h : kv.1 = u <;> simp [h]
  rw [h1]
  simp

theorem hasKey_append (kvs ext : List (String × JVal)) (k : String) :
    hasKey (kvs ++ ext) k = (hasKey kvs k || hasKey ext k) := by
  simp [hasKey, List.any_append]

theorem dGet_append_left {kvs : List (String × JVal)} (ext : List (String × JVal))
    {k : String} (h : hasKey kvs k = true) :
    dGet (kvs ++ ext) k = dGet kvs k := by
  induction kvs with
  | nil => simp [hasKey] at h
  | cons kv rest ih =>
    obtain ⟨k2, v2⟩ := kv
    by_cases hk : k2 = k
    · simp [dGet, hk]
    · have h2 : hasKey rest k = true := by
        simp only [hasKey, List.any_cons, Bool.or_eq_true, decide_eq_true_eq] at h
        rcases h with h | h
        · exact absurd h hk
        · simpa [hasKey] using h
      simp [dGet, hk, ih h2]

theorem inj1_dGet {kvs : List (String × JVal)} {cond : Bool} {kn : String}
    {vn : JVal} {k : String} (h : hasKey kvs k = true) :
    dGet (Storage.inj1 kvs cond kn vn) k = dGet kvs k := by
  unfold Storage.inj1
  split
  · exact dGet_append_left _ h
  · rfl

theorem inj1_hasKey_mono {kvs : List (String × JVal)} {cond : Bool} {kn : String}
    {vn : JVal} {k : String} (h : hasKey kvs k = true) :
    hasKey (Storage.inj1 kvs cond kn vn) k = true := by
  unfold Storage.inj1
  split
  · simp [hasKey_append, h]
  · exact h

theorem inj1_keys {kvs : List (String × JVal)} {cond : Bool} {kn : String}
    {vn : JVal} {k : String} (h : hasKey (Storage.inj1 kvs cond kn vn) k = true) :
    hasKey kvs k = true ∨ k = kn := by
  unfold Storage.inj1 at h
  split at h
  · rw [hasKey_append, Bool.or_eq_true] at h
    rcases h with h | h
    · exact Or.inl h
    · right
      simp only [hasKey, List.any_cons, List.any_nil, Bool.or_false,
        decide_eq_true_eq] at h
      exact h.symm
  · exact Or.inl h

theorem injectMeta_dGet (row : Storage.Row) (kvs : List (String × JVal))
    {k : String} (h : hasKey kvs k = true) :
    dGet (Storage.injectMeta row kvs) k = dGet kvs k := by
  simp only [Storage.injectMeta]
  rw [inj1_dGet (inj1_hasKey_mono (inj1_hasKey_mono (inj1_hasKey_mono
        (inj1_hasKey_mono (inj1_hasKey_mono h))))),
      inj1_dGet (inj1_hasKey_mono (inj1_hasKey_mono (inj1_hasKey_mono
        (inj1_hasKey_mono h)))),
      inj1_dGet (inj1_hasKey_mono (inj1_hasKey_mono (inj1_hasKey_mono h))),
      inj1_dGet (inj1_hasKey_mono (inj1_hasKey_mono h)),
      inj1_dGet (inj1_hasKey_mono h),
      inj1_dGet h]

theorem injectMeta_keys (row : Storage.Row) (kvs : List (String × JVal))
    {k : String} (h : hasKey (Storage.injectMeta row kvs) k = true) :
    hasKey kvs k = true ∨ k ∈ Storage.derivedKeys := by
  simp only [Storage.injectMeta] at h
  rcases inj1_keys h with h | rfl
  · rcases inj1_keys h with h | rfl
    · rcases inj1_keys h with h | rfl
      · rcases inj1_keys h with h | rfl
        · rcases inj1_keys h with h | rfl
          · rcases inj1_keys h with h | rfl
            · exact Or.inl h
            · exact Or.inr (by simp [Storage.derivedKeys])
          · exact Or.inr (by simp [Storage.derivedKeys])
        · exact Or.inr (by simp [Storage.derivedKeys])
      · exact Or.inr (by simp [Storage.derivedKeys])
    · exact Or.inr (by simp [Storage.derivedKeys])
  · exact Or.inr (by simp [Storage.derivedKeys])

theorem get_after_save (db : Storage.Store) (u code title now : String)
    (pub : Option Int) (A : List (String × JVal)) (hu : u ≠ "")
    (hwf : wfJ (.obj A) = true) :
    ∃ kvs, (Storage.get_cached_analysis
        (Storage.save_analysis db u code title pub (.obj A) now) u).1 =
          some (.obj kvs) ∧
      (∀ k, hasKey A k = true → dGet kvs k = dGet A k) ∧
      (∀ k, hasKey kvs k = true → hasKey A k = true ∨ k ∈ Storage.derivedKeys) := by
  have hsave : Storage.save_analysis db u code title pub (.obj A) now =
      Storage.upsert db u (Storage.rowFor code title pub (.obj A) now) := by
    unfold Storage.save_analysis
    rw [if_neg hu]
  refine ⟨Storage.injectMeta (Storage.rowFor code title pub (.obj A) now) A,
    ?_, ?_, ?_⟩
  · rw [hsave]
    unfold Storage.get_cached_analysis
    rw [if_neg hu, lookupRow_upsert]
    have hload : loads (Storage.rowFor code title pub (.obj A) now).payload_json =
        some (.obj A) := by
      show loads (dumps (.obj A)) = some (.obj A)
      exact loads_dumps _ hwf
    simp [hload]
  · intro k hk
    exact injectMeta_dGet _ _ hk
  · intro k hk
    exact injectMeta_keys _ _ hk

/-- C3, counterexample to the claim as stated: after `put("u", {})` with an
empty title, `get("u")` returns `{"doc_type": "other"}` — the payload
augmented with a derived column — which is not equal to the stored `{}`. -/
theorem C3_put_get_not_identical :
    (Storage.get_cached_analysis
      (Storage.save_analysis [] "u" "" "" none (.obj []) "now") "u").1 =
        some (.obj [("doc_type", .str "other")]) ∧
    (JVal.obj [("doc_type", .str "other")]) ≠ .obj [] := by
  exact ⟨rfl, by simp⟩

/-- C3, amended: after `put(id, A)`, `get(id)` returns `A` extended with at
most the derived metadata columns (`model`, `tokens`, `schema_version`,
`code4`, `published_date_jst`, `doc_type`) on keys absent from `A`: it
agrees with `A` on every key of `A`.  After a subsequent `put(id, B)` the
same holds for `B` (last-write-wins), and the store holds exactly one row
keyed by `id`. -/
theorem C3_cache_last_write_wins :
    ∀ (db : Storage.Store) (u codeA titleA nowA codeB titleB nowB : String)
      (pubA pubB : Option Int) (A B : List (String × JVal)),
      u ≠ "" → wfJ (.obj A) = true → wfJ (.obj B) = true →
      (∃ kvs1, (Storage.get_cached_analysis
          (Storage.save_analysis db u codeA titleA pubA (.obj A) nowA) u).1 =
            some (.obj kvs1) ∧
        (∀ k, hasKey A k = true → dGet kvs1 k = dGet A k) ∧
        (∀ k, hasKey kvs1 k = true → hasKey A k = true ∨ k ∈ Storage.derivedKeys)) ∧
      (∃ kvs2, (Storage.get_cached_analysis
          (Storage.save_analysis
            (Storage.save_analysis db u codeA titleA pubA (.obj A) nowA)
            u codeB titleB pubB (.obj B) nowB) u).1 = some (.obj kvs2) ∧
        (∀ k, hasKey B k = true → dGet kvs2 k = dGet B k) ∧
        (∀ k, hasKey kvs2 k = true → hasKey B k = true ∨ k ∈ Storage.derivedKeys)) ∧
      Storage.rowCount (Storage.save_analysis
        (Storage.save_analysis db u codeA titleA pubA (.obj A) nowA)
        u codeB titleB pubB (.obj B) nowB) u = 1 := by
  intro db u codeA titleA nowA codeB titleB nowB pubA pubB A B hu hwA hwB
  refine ⟨get_after_save db u codeA titleA nowA pubA A hu hwA,
    get_after_save _ u codeB titleB nowB pubB B hu hwB, ?_⟩
  have hsave : Storage.save_analysis
      (Storage.save_analysis db u codeA titleA pubA (.obj A) nowA)
      u codeB titleB pubB (.obj B) nowB =
      Storage.upsert (Storage.save_analysis db u codeA titleA pubA (.obj A) nowA)
        u (Storage.rowFor codeB titleB pubB (.obj B) nowB) := by
    unfold Storage.save_analysis
    rw [if_neg hu]
  rw [hsave, rowCount_upsert]

/-- Witness for C3 (amended): writing `{"a": 1}` then `{"a": 2}` under the
same identity, the read-back agrees with the second write on key `a`. -/
theorem C3_cache_last_write_wins_witness :
    ∃ kvs2, (Storage.get_cached_analysis
        (Storage.save_analysis
          (Storage.save_analysis [] "u" "" "" none (.obj [("a", .int 1)]) "t1")
          "u" "" "" none (.obj [("a", .int 2)]) "t2") "u").1 = some (.obj kvs2) ∧
      dGet kvs2 "a" = some (.int 2) := by
  obtain ⟨h1, h2, h3⟩ := C3_cache_last_write_wins [] "u" "" "" "t1" "" "" "t2"
    none none [("a", .int 1)] [("a", .int 2)] (by decide) (by decide) (by decide)
  obtain ⟨kvs2, hk1, hk2, hk3⟩ := h2
  refine ⟨kvs2, hk1, ?_⟩
  rw [hk2 "a" (by decide)]
  rfl

theorem findCharIdx_prefix_none {c : Char} {xs : List Char} (tl ys : List Char)
    (h : ∀ x ∈ xs, x ≠ c) (hys : ys = c :: tl) :
    Analyzer.findCharIdx c (xs ++ ys) = some xs.length := by
  subst hys
  induction xs with
  | nil => simp [Analyzer.findCharIdx]
  | cons x rest ih =>
    have hx : x ≠ c := h x (by simp)
    simp [Analyzer.findCharIdx, hx, ih (fun y hy => h y (by simp [hy]))]

/-- C7, counterexample to the claim as stated: the extraction takes the
slice from the first opening brace to the last closing brace, so for a text
consisting of one well-formed JSON object followed by prose containing a
closing brace, the call fails instead of yielding the object. -/
theorem C7_arbitrary_prose_fails :
    loads "\x7b\"a\": 1\x7d" = some (.obj [("a", .int 1)]) ∧
    Analyzer.parse_llm_payload "\x7b\"a\": 1\x7d tail\x7d" =
      .error .jsonDecodeError := by
  exact ⟨rfl, rfl⟩

theorem extract_exact (pre post objStr : String)
    (hpre : pre.data.all braceFree = true) (hpost : post.data.all braceFree = true)
    (hhd : objStr.data.head? = some (Char.ofNat 123))
    (hlast : objStr.data.getLast? = some (Char.ofNat 125)) :
    Analyzer._extract_first_json_object (pre ++ objStr ++ post) = objStr := by
  obtain ⟨otl, hobj⟩ : ∃ tl, objStr.data = (Char.ofNat 123) :: tl := by
    cases h : objStr.data with
    | nil => rw [h] at hhd; exact absurd hhd (by simp)
    | cons a tl =>
      rw [h] at hhd
      simp only [List.head?_cons, Option.some.injEq] at hhd
      exact ⟨tl, by rw [hhd]⟩
  obtain ⟨rtl, hrobj⟩ : ∃ tl, objStr.data.reverse = (Char.ofNat 125) :: tl := by
    cases h : objStr.data.reverse with
    | nil =>
      have : objStr.data = [] := by simpa using congrArg List.reverse h
      rw [this] at hhd
      exact absurd hhd (by simp)
    | cons a tl =>
      have h2 : objStr.data.getLast? = some a := by
        rw [← List.head?_reverse, h, List.head?_cons]
      rw [hlast] at h2
      injection h2 with h3
      subst h3
      exact ⟨tl, rfl⟩
  have hpre2 : ∀ x ∈ pre.data, x ≠ Char.ofNat 123 := by
    intro x hx
    have := List.all_eq_true.mp hpre x hx
    simp only [braceFree, Bool.not_eq_true', Bool.or_eq_false_iff,
      decide_eq_false_iff_not] at this
    exact this.1
  have hpost2 : ∀ x ∈ post.data.reverse, x ≠ Char.ofNat 125 := by
    intro x hx
    have := List.all_eq_true.mp hpost x (List.mem_reverse.mp hx)
    simp only [braceFree, Bool.not_eq_true', Bool.or_eq_false_iff,
      decide_eq_false_iff_not] at this
    exact this.2
  have hdata : (pre ++ objStr ++ post).data =
      pre.data ++ (objStr.data ++ post.data) := by
    simp [List.append_assoc]
  have hfind : Analyzer.findCharIdx (Char.ofNat 123) (pre ++ objStr ++ post).data =
      some pre.data.length := by
    rw [hdata]
    exact findCharIdx_prefix_none (otl ++ post.data) _ hpre2 (by rw [hobj]; simp)
  have hrev : (pre ++ objStr ++ post).data.reverse =
      post.data.reverse ++ (objStr.data.reverse ++ pre.data.reverse) := by
    rw [hdata]
    simp [List.reverse_append, List.append_assoc]
  have hrfind : Analyzer.rfindCharIdx (Char.ofNat 125) (pre ++ objStr ++ post).data =
      some ((pre ++ objStr ++ post).data.length - 1 - post.data.length) := by
    unfold Analyzer.rfindCharIdx
    rw [hrev, findCharIdx_prefix_none (rtl ++ pre.data.reverse) _ hpost2
      (by rw [hrobj]; simp)]
    simp [List.length_reverse]
  have hlen : (pre ++ objStr ++ post).data.length =
      pre.data.length + objStr.data.length + post.data.length := by
    rw [hdata]; simp; omega
  have holen : 2 ≤ objStr.data.length := by
    rw [hobj]
    cases otl with
    | nil =>
      rw [hobj] at hlast
      exact absurd hlast (by decide)
    | cons a tl => simp only [List.length_cons]; omega
  have he : (pre ++ objStr ++ post).data.length - 1 - post.data.length =
      pre.data.length + objStr.data.length - 1 := by omega
  have hlt : pre.data.length < pre.data.length + objStr.data.length - 1 := by omega
  simp only [Analyzer._extract_first_json_object, hfind, hrfind, he, hlt, if_true]
  have he2 : pre.data.length + objStr.data.length - 1 + 1 =
      (pre.data ++ objStr.data).length := by rw [List.length_append]; omega
  have htake : ((pre ++ objStr ++ post).data.take
      (pre.data.length + objStr.data.length - 1 + 1)) = pre.data ++ objStr.data := by
    rw [he2, hdata, ← List.append_assoc]
    exact List.take_left (pre.data ++ objStr.data) post.data
  rw [htake]
  have hdrop : (pre.data ++ objStr.data).drop pre.data.length = objStr.data :=
    List.drop_left pre.data objStr.data
  rw [hdrop]

theorem isObj_obj {v : JVal} (h : Analyzer.isObj v = true) :
    ∃ kvs, v = JVal.obj kvs := by
  cases v with
  | obj kvs => exact ⟨kvs, rfl⟩
  | null => exact absurd h (by decide)
  | bool b => simp [Analyzer.isObj] at h
  | int n => simp [Analyzer.isObj] at h
  | str s2 => simp [Analyzer.isObj] at h
  | arr xs => simp [Analyzer.isObj] at h

theorem branch_ok {p v : JVal}
    (h : (if Analyzer.isObj p = true then Except.ok p
          else Except.error Analyzer.AnalyzeErr.notAnObject) =
         (Except.ok v : Except Analyzer.AnalyzeErr JVal)) :
    ∃ kvs, v = JVal.obj kvs := by
  by_cases hp : Analyzer.isObj p = true
  · rw [if_pos hp] at h
    injection h with h2
    subst h2
    exact isObj_obj hp
  · rw [if_neg hp] at h
    exact Except.noConfusion h

/-- C7, amended: the pipeline strips a surrounding code-fence and slices
from the first `\x7b` to the last `\x7d`; when the prose around a single
well-formed JSON object contains no brace characters the slice is exactly
that object (and, with backquote-free prose, the whole call returns it, as
the concrete cases show); a successful call only ever returns a JSON
object — when no valid JSON object can be extracted the call raises
instead of guessing. -/
theorem C7_extraction_first_object :
    (∀ pre post objStr : String,
      pre.data.all braceFree = true → post.data.all braceFree = true →
      objStr.data.head? = some (Char.ofNat 123) →
      objStr.data.getLast? = some (Char.ofNat 125) →
      Analyzer._extract_first_json_object (pre ++ objStr ++ post) = objStr) ∧
    (∀ text v, Analyzer.parse_llm_payload text = .ok v → ∃ kvs, v = .obj kvs) ∧
    Analyzer.parse_llm_payload "```json\n\x7b\"a\": 1\x7d\n```" =
      .ok (.obj [("a", .int 1)]) ∧
    Analyzer.parse_llm_payload "prose before \x7b\"a\": 1\x7d prose after" =
      .ok (.obj [("a", .int 1)]) ∧
    Analyzer.parse_llm_payload "no json object" = .error .jsonDecodeError := by
  refine ⟨extract_exact, ?_, rfl, rfl, rfl⟩
  intro text v h
  simp only [Analyzer.parse_llm_payload] at h
  cases hl : loads (Analyzer._extract_first_json_object
      (Analyzer._strip_code_fences (pyStrip text))) with
  | some p =>
    simp only [hl] at h
    exact branch_ok h
  | none =>
    simp only [hl] at h
    cases hl2 : loads (Analyzer._strip_code_fences
        (Analyzer._extract_first_json_object
          (Analyzer._extract_first_json_object
            (Analyzer._strip_code_fences (pyStrip text))))) with
    | some p =>
      simp only [hl2] at h
      exact branch_ok h
    | none =>
      simp only [hl2] at h
      exact Except.noConfusion h

/-- Witness for C7 (amended): on brace-free prose the slice recovers the
single object, and a successful parse of the prose-wrapped text is the
object itself. -/
theorem C7_extraction_first_object_witness :
    Analyzer._extract_first_json_object "before \x7b\"a\": 1\x7d after" =
      "\x7b\"a\": 1\x7d" ∧
    (∃ kvs, (JVal.obj [("a", .int 1)]) = JVal.obj kvs) := by
  constructor
  · exact C7_extraction_first_object.1 "before " " after" "\x7b\"a\": 1\x7d"
      (by decide) (by decide) (by decide) (by decide)
  · exact C7_extraction_first_object.2.1 "prose before \x7b\"a\": 1\x7d prose after"
      (.obj [("a", .int 1)]) rfl

end KS








